import Mathlib

/-
  Verification of the lazy raw-BSON document layer of this repository.

  Source files embedded directly (they are present under src/):
    - bson/raw_bson_document.py : mutable lazy RawBSONDocument
    - bson/raw_bson.py          : read-only RawBSONDocument and RawBSONIterator
    - bson/__init__.py          : BSON.encode / BSON.decode wrappers

  The element/document codec itself (bson.pybson: dict_to_bson, bson_to_dict,
  element_to_dict) and bson.codec_options (CodecOptions, transformers) are part
  of this repository but are not under src/; per the spec they are modelled
  here from the natural-language specification (sections 3, 4.1, 4.2, 4.3).
  Such definitions carry a doc comment starting with: Modelled from the spec.

  Byte buffers are embedded as List Nat (each entry one byte); machine int32
  and int64 fields are Int with explicit two-complement byte encodings.
-/

/-- BsonError enumerates the failure modes of the embedded codec layer:
    invalidObjectSize and badEoo are the two InvalidBSON framing errors raised
    by the lazy views, invalidBSON covers the remaining malformed-buffer
    errors (truncated element, unknown type tag, missing terminator),
    invalidDocument is the document-validation error of the encoder,
    keyError models a Python KeyError, stopIteration the end-of-sequence
    signal, valueError a Python ValueError (failed byte scan). -/
inductive BsonError where
  | invalidObjectSize
  | badEoo
  | invalidBSON
  | invalidDocument
  | keyError
  | stopIteration
  | valueError
deriving DecidableEq, Repr

/-- Byte buffers: one Nat per byte. -/
abbrev Bytes := List Nat

/-- Every entry of the buffer is an actual byte value. -/
def bytesWF (b : Bytes) : Bool := b.all (fun x => x < 256)

/-- Little-endian 4-byte encoding of a 32-bit unsigned value. -/
def encU32LE (n : Nat) : Bytes :=
  [n % 256, n / 256 % 256, n / 65536 % 256, n / 16777216 % 256]

/-- Little-endian 8-byte encoding of a 64-bit unsigned value. -/
def encU64LE (n : Nat) : Bytes :=
  [n % 256, n / 256 % 256, n / 65536 % 256, n / 16777216 % 256,
   n / 4294967296 % 256, n / 1099511627776 % 256,
   n / 281474976710656 % 256, n / 72057594037927936 % 256]

/-- Read the first four bytes of a buffer as a little-endian unsigned value
    (callers establish that the buffer has at least four bytes). -/
def readU32 (b : Bytes) : Nat :=
  match b with
  | a :: b1 :: c :: d :: _ => a + 256 * (b1 + 256 * (c + 256 * d))
  | _ => 0

/-- Read the first eight bytes of a buffer as a little-endian unsigned value. -/
def readU64 (b : Bytes) : Nat :=
  match b with
  | a :: b1 :: c :: d :: e :: f :: g :: h :: _ =>
      a + 256 * (b1 + 256 * (c + 256 * (d + 256 *
        (e + 256 * (f + 256 * (g + 256 * h))))))
  | _ => 0

/-- Reinterpret a 32-bit unsigned value as a signed int32, as the struct
    format code lower-case i used by UNPACK_INT does. -/
def toI32 (n : Nat) : Int :=
  if n < 2147483648 then (n : Int) else (n : Int) - 4294967296

/-- Reinterpret a 64-bit unsigned value as a signed int64. -/
def toI64 (n : Nat) : Int :=
  if n < 9223372036854775808 then (n : Int) else (n : Int) - 18446744073709551616

/-- Two-complement little-endian encoding of a signed int32. -/
def encI32 (i : Int) : Bytes := encU32LE ((i % 4294967296).toNat)

/-- Two-complement little-endian encoding of a signed int64. -/
def encI64 (i : Int) : Bytes := encU64LE ((i % 18446744073709551616).toNat)

/-- Modelled from the spec (section 3, Typed Value): the closed variant over
    the wire types of the element codec, which is part of this repository but
    not under src (bson.pybson).  The double and decimal128 payloads are kept
    at bit level as raw 8- and 16-byte payloads, matching the bit-exact wire
    contract; text payloads (string, code, symbol, regex parts, the DB
    pointer namespace) are kept as their UTF-8 bytes. -/
inductive Value where
  | double (payload : Bytes)
  | string (s : Bytes)
  | doc (d : List (Bytes × Value))
  | arr (l : List Value)
  | binary (subtype : Nat) (b : Bytes)
  | undefined
  | objectId (b : Bytes)
  | bool (b : Bool)
  | datetime (ms : Int)
  | null
  | regex (pattern : Bytes) (flags : Bytes)
  | dbPointer (ns : Bytes) (oid : Bytes)
  | code (s : Bytes)
  | symbol (s : Bytes)
  | codeWScope (s : Bytes) (scope : List (Bytes × Value))
  | int32 (i : Int)
  | timestamp (t : Nat)
  | int64 (i : Int)
  | decimal128 (payload : Bytes)
  | minKey
  | maxKey

/-- A decoded document: an ordered sequence of named fields. -/
abbrev Doc := List (Bytes × Value)

/-- The type tag byte of each wire type (section 3: the mapping is part of the
    wire contract). -/
def tagOf : Value → Nat
  | .double _ => 1
  | .string _ => 2
  | .doc _ => 3
  | .arr _ => 4
  | .binary _ _ => 5
  | .undefined => 6
  | .objectId _ => 7
  | .bool _ => 8
  | .datetime _ => 9
  | .null => 10
  | .regex _ _ => 11
  | .dbPointer _ _ => 12
  | .code _ => 13
  | .symbol _ => 14
  | .codeWScope _ _ => 15
  | .int32 _ => 16
  | .timestamp _ => 17
  | .int64 _ => 18
  | .decimal128 _ => 19
  | .minKey => 255
  | .maxKey => 127

/-- Decimal digit bytes of a natural number, with explicit fuel. -/
def natDecimalAux : Nat → Nat → Bytes
  | 0, _ => []
  | f + 1, n => if n < 10 then [48 + n] else natDecimalAux f (n / 10) ++ [48 + n % 10]

/-- ASCII decimal representation of a natural number, used for the element
    names of an encoded array (section 4.1). -/
def natDecimal (n : Nat) : Bytes := natDecimalAux (n + 1) n

/-- Python dict style insertion: replace the value in place if the key is
    already bound, append the new pair otherwise. -/
def dictSet : Doc → Bytes → Value → Doc
  | [], k, v => [(k, v)]
  | (k1, v1) :: tl, k, v =>
      if k1 = k then (k, v) :: tl else (k1, v1) :: dictSet tl k v

/-- Python dict style deletion: remove the binding of a key. -/
def dictDel : Doc → Bytes → Doc
  | [], _ => []
  | (k1, v1) :: tl, k => if k1 = k then tl else (k1, v1) :: dictDel tl k

/-- Membership test for a key. -/
def hasKey : Doc → Bytes → Bool
  | [], _ => false
  | (k1, _) :: tl, k => if k1 = k then true else hasKey tl k

/-- Lookup of a key, as Python dict subscription. -/
def dlookup : Doc → Bytes → Option Value
  | [], _ => none
  | (k1, v1) :: tl, k => if k1 = k then some v1 else dlookup tl k

/-- Build a Python dict from decoded (name, value) pairs in order: later
    bindings of a duplicate name overwrite earlier ones. -/
def dictFromElems (l : List (Bytes × Value)) : Doc :=
  l.foldl (fun acc p => dictSet acc p.1 p.2) []

/-- Keys of a document are pairwise distinct. -/
def noDupKeys : Doc → Bool
  | [] => true
  | (k, _) :: tl => !(hasKey tl k) && noDupKeys tl

mutual

/-- Byte length of the encoded payload of a value (mirrors the encoder). -/
def payloadSize : Value → Nat
  | .double p => p.length
  | .string s => 4 + s.length + 1
  | .doc d => 5 + elemsSize d
  | .arr l => 5 + arrElemsSize 0 l
  | .binary _ b => 4 + 1 + b.length
  | .undefined => 0
  | .objectId b => b.length
  | .bool _ => 1
  | .datetime _ => 8
  | .null => 0
  | .regex p f => p.length + 1 + f.length + 1
  | .dbPointer ns oid => 4 + ns.length + 1 + oid.length
  | .code s => 4 + s.length + 1
  | .symbol s => 4 + s.length + 1
  | .codeWScope s scope => 4 + (4 + s.length + 1) + (5 + elemsSize scope)
  | .int32 _ => 4
  | .timestamp _ => 8
  | .int64 _ => 8
  | .decimal128 p => p.length
  | .minKey => 0
  | .maxKey => 0

/-- Byte length of an encoded element list. -/
def elemsSize : List (Bytes × Value) → Nat
  | [] => 0
  | (n, v) :: tl => 1 + n.length + 1 + payloadSize v + elemsSize tl

/-- Byte length of an encoded array body whose first element has index i. -/
def arrElemsSize : Nat → List Value → Nat
  | _, [] => 0
  | i, v :: tl => 1 + (natDecimal i).length + 1 + payloadSize v + arrElemsSize (i + 1) tl

end

mutual

/-- Modelled from the spec (sections 3 and 4.1): a value is well formed when
    its payload obeys the fixed-size and range constraints of its wire type
    and every embedded size fits in a positive int32. -/
def Value.wf : Value → Bool
  | .double p => p.length = 8
  | .string s => s.length + 1 ≤ 2147483647
  | .doc d => docWF d
  | .arr l => valuesWF l && (5 + arrElemsSize 0 l ≤ 2147483647)
  | .binary st b => st < 256 && b.length ≤ 2147483647
  | .undefined => true
  | .objectId b => b.length = 12
  | .bool _ => true
  | .datetime ms => (-9223372036854775808 ≤ ms) && (ms < 9223372036854775808)
  | .null => true
  | .regex p f => !(p.contains 0) && !(f.contains 0)
  | .dbPointer ns oid => (ns.length + 1 ≤ 2147483647) && (oid.length = 12)
  | .code s => s.length + 1 ≤ 2147483647
  | .symbol s => s.length + 1 ≤ 2147483647
  | .codeWScope s scope =>
      (s.length + 1 ≤ 2147483647) && docWF scope &&
        (4 + (4 + s.length + 1) + (5 + elemsSize scope) ≤ 2147483647)
  | .int32 i => (-2147483648 ≤ i) && (i < 2147483648)
  | .timestamp t => t < 18446744073709551616
  | .int64 i => (-9223372036854775808 ≤ i) && (i < 9223372036854775808)
  | .decimal128 p => p.length = 16
  | .minKey => true
  | .maxKey => true

/-- Every field of the list is well formed: the name holds no NUL byte and
    the value satisfies Value.wf. -/
def fieldsWF : List (Bytes × Value) → Bool
  | [] => true
  | (n, v) :: tl => !(n.contains 0) && Value.wf v && fieldsWF tl

/-- All values of a list are well formed. -/
def valuesWF : List Value → Bool
  | [] => true
  | v :: tl => Value.wf v && valuesWF tl

/-- Modelled from the spec (section 3, Document): ordered uniquely-named
    fields, each well formed, with a total encoded size that fits in a
    positive int32. -/
def docWF (d : Doc) : Bool :=
  noDupKeys d && fieldsWF d && (5 + elemsSize d ≤ 2147483647)

end

/-- Modelled from the spec (section 3, Codec Options): the preferred container
    constructor, reduced to the two container classes the claims distinguish:
    a plain dict, or the raw-marked RawBSONDocument class. -/
inductive DocClassK where
  | dict
  | rawBSONDocument
deriving DecidableEq, Repr

/-- Modelled from the spec (sections 3 and 4.3): a transformer is a capability
    pair of two independent optional directional hooks.  Each hook merges the
    type predicate with the conversion: it returns some transformed value when
    it claims the input and none otherwise.  The encode-side hook is carried
    as data (the registry is threaded through every call and discarded by the
    raw views); the modelled codec consults the decode-side hooks as each
    field materializes, per section 4.2. -/
structure BsonTransformer where
  encodeHookP : Option (Value → Option Value)
  decodeHookP : Option (Value → Option Value)

/-- Modelled from the spec (section 3, Codec Options): the immutable
    configuration bundle threaded through every encode and decode call.
    bson.codec_options is part of this repository but not under src. -/
structure CodecOptions where
  tz_aware : Bool
  document_class : DocClassK
  uuid_representation : Nat
  transformer_registry : List BsonTransformer

/-- Modelled from the spec: the default codec options (naive datetimes, dict
    container, legacy uuid wire subtype, empty transformer registry). -/
def DEFAULT_CODEC_OPTIONS : CodecOptions :=
  { tz_aware := false
    document_class := DocClassK.dict
    uuid_representation := 3
    transformer_registry := [] }

/-- Modelled from the spec (section 4.3): ordered first-match-wins lookup of a
    decode-side hook; a transformer supplying no decode hook is a no-op for
    decoding, and a hook that does not claim the value defers to later
    entries.  The hook input is the already-decoded built-in wire value and
    its output is final. -/
def applyDecodeHook : List BsonTransformer → Value → Value
  | [], v => v
  | t :: tl, v =>
      match t.decodeHookP with
      | some h => match h v with
          | some w => w
          | none => applyDecodeHook tl v
      | none => applyDecodeHook tl v

/-- A top-level key is rejected under check keys mode when it starts with the
    dollar byte (36) or contains the dot byte (46). -/
def badKeyB (name : Bytes) : Bool := (name.head? == some 36) || name.contains 46

mutual

/-- Modelled from the spec (section 4.1): the encoded payload of one value.
    Strings are length-prefixed with a trailing NUL; sub-documents and arrays
    recurse into the document encoder; fixed-size numerics use explicit
    little-endian two-complement layouts. -/
def putValue (co : CodecOptions) : Value → Except BsonError Bytes
  | .double p => .ok p
  | .string s => .ok (encU32LE (s.length + 1) ++ s ++ [0])
  | .doc d => do
      let body ← putElements co false d
      .ok (encU32LE (body.length + 5) ++ body ++ [0])
  | .arr l => do
      let body ← putArrElems co 0 l
      .ok (encU32LE (body.length + 5) ++ body ++ [0])
  | .binary st b => .ok (encU32LE b.length ++ st :: b)
  | .undefined => .ok []
  | .objectId b => .ok b
  | .bool t => .ok [if t then 1 else 0]
  | .datetime ms => .ok (encI64 ms)
  | .null => .ok []
  | .regex p f => .ok (p ++ [0] ++ f ++ [0])
  | .dbPointer ns oid => .ok (encU32LE (ns.length + 1) ++ ns ++ [0] ++ oid)
  | .code s => .ok (encU32LE (s.length + 1) ++ s ++ [0])
  | .symbol s => .ok (encU32LE (s.length + 1) ++ s ++ [0])
  | .codeWScope s scope => do
      let body ← putElements co false scope
      .ok (encU32LE (4 + (4 + s.length + 1) + (body.length + 5)) ++
        (encU32LE (s.length + 1) ++ s ++ [0]) ++
        (encU32LE (body.length + 5) ++ body ++ [0]))
  | .int32 i => .ok (encI32 i)
  | .timestamp t => .ok (encU64LE t)
  | .int64 i => .ok (encI64 i)
  | .decimal128 p => .ok p
  | .minKey => .ok []
  | .maxKey => .ok []

/-- Modelled from the spec (sections 4.1 and 7): one encoded element.  Under
    check keys mode a top-level name starting with the dollar byte or holding
    a dot byte is a document-validation error; a name holding an embedded NUL
    byte violates the cstring wire format (section 3) and is likewise a
    document-validation error raised before any bytes are emitted. -/
def putElement (co : CodecOptions) (check_keys : Bool) (name : Bytes) (v : Value) :
    Except BsonError Bytes :=
  if check_keys && badKeyB name then .error .invalidDocument
  else if name.contains 0 then .error .invalidDocument
  else do
    let p ← putValue co v
    .ok (tagOf v :: (name ++ 0 :: p))

/-- Encode the fields of a mapping in iteration order.  The check keys mode
    applies only at the level it is requested at: recursion into embedded
    documents (putValue) always passes false, per section 4.1 (top level
    only). -/
def putElements (co : CodecOptions) (check_keys : Bool) :
    List (Bytes × Value) → Except BsonError Bytes
  | [] => .ok []
  | (n, v) :: tl => do
      let e ← putElement co check_keys n v
      let rest ← putElements co check_keys tl
      .ok (e ++ rest)

/-- Encode array members with decimal-string index names in ascending order. -/
def putArrElems (co : CodecOptions) : Nat → List Value → Except BsonError Bytes
  | _, [] => .ok []
  | i, v :: tl => do
      let e ← putElement co false (natDecimal i) v
      let rest ← putArrElems co (i + 1) tl
      .ok (e ++ rest)

end

/-- Modelled from the spec (section 4.2, encodeDocument): frame the encoded
    fields with the total size prefix and the terminating NUL.  This embeds
    the dict_to_bson entry point of bson.pybson, which is part of this
    repository but not under src.  Encode-side transformer hooks are carried
    in the options but not consulted here: every encode call the claims
    reason about is made with a rebuilt registry-free options bundle. -/
def dict_to_bson (d : Doc) (check_keys : Bool) (co : CodecOptions) :
    Except BsonError Bytes := do
  let body ← putElements co check_keys d
  .ok (encU32LE (body.length + 5) ++ body ++ [0])

/-- Scan a NUL-terminated name: returns the name bytes and the remainder
    after the terminator, or none when no NUL byte is present. -/
def takeCString : Bytes → Option (Bytes × Bytes)
  | [] => none
  | x :: r =>
      if x = 0 then some ([], r)
      else (takeCString r).map (fun p => (x :: p.1, p.2))

/-- The bundle of mutually recursive decoding functions at one fuel level:
    value payloads by tag, element sequences, document bodies and array
    bodies.  Bundling them makes the recursion a single structural descent on
    the fuel, so a decode of a concrete buffer evaluates by reduction. -/
structure DecFuns where
  val : Nat → Bytes → Except BsonError (Value × Bytes)
  elems : Bytes → Except BsonError (List (Bytes × Value))
  docF : Bytes → Except BsonError (Doc × Bytes)
  arrF : Bytes → Except BsonError (List Value × Bytes)

/-- Decoding with no fuel left: every entry fails (unreachable from the
    public entry points, whose fuel dominates the element count). -/
def decBase : DecFuns :=
  { val := fun _ _ => .error .invalidBSON
    elems := fun _ => .error .invalidBSON
    docF := fun _ => .error .invalidBSON
    arrF := fun _ => .error .invalidBSON }

/-- Modelled from the spec (sections 4.1 and 4.2): one fuel level of the
    decoder.

    val: decode one value payload given its type tag, consuming a prefix of
    the buffer.  Every length-prefixed read is bound-checked against the
    remaining buffer before it happens; an unrecognized type tag is an
    invalid-BSON error; sub-documents and arrays recurse into the document
    decoder of the previous fuel level.

    elems: decode elements sequentially until the region is exhausted,
    applying the decode-side transformer hooks to each field as it
    materializes.

    docF: read the declared total size, verify the buffer holds at least
    that many bytes (else the invalid-object-size error) and that the byte
    at declaredSize - 1 is NUL (else the bad-eoo error), then decode the
    element region and build the container with Python dict semantics
    (later duplicate names overwrite earlier ones); returns the mapping and
    the bytes beyond the document.

    arrF: an embedded array decodes with the same framing checks as a
    document; element names are scanned and ignored and the values are
    collected in buffer order. -/
def decStep (co : CodecOptions) (prev : DecFuns) : DecFuns where
  val := fun tag b =>
    match tag with
    | 1 => if b.length < 8 then .error .invalidBSON
           else .ok (.double (b.take 8), b.drop 8)
    | 2 =>
        if b.length < 4 then .error .invalidBSON
        else
          let szI := toI32 (readU32 b)
          if szI < 1 then .error .invalidBSON
          else
            let sz := szI.toNat
            if b.length < 4 + sz then .error .invalidBSON
            else if (b.drop (4 + sz - 1)).take 1 ≠ [0] then .error .invalidBSON
            else .ok (.string ((b.drop 4).take (sz - 1)), b.drop (4 + sz))
    | 3 =>
        match prev.docF b with
        | .error e => .error e
        | .ok (d, rest) => .ok (.doc d, rest)
    | 4 =>
        match prev.arrF b with
        | .error e => .error e
        | .ok (l, rest) => .ok (.arr l, rest)
    | 5 =>
        if b.length < 4 then .error .invalidBSON
        else
          let szI := toI32 (readU32 b)
          if szI < 0 then .error .invalidBSON
          else
            let sz := szI.toNat
            if b.length < 4 + 1 + sz then .error .invalidBSON
            else
              .ok (.binary ((b.drop 4).headI) ((b.drop 5).take sz), b.drop (5 + sz))
    | 6 => .ok (.undefined, b)
    | 7 => if b.length < 12 then .error .invalidBSON
           else .ok (.objectId (b.take 12), b.drop 12)
    | 8 =>
        match b with
        | 0 :: r => .ok (.bool false, r)
        | 1 :: r => .ok (.bool true, r)
        | _ => .error .invalidBSON
    | 9 => if b.length < 8 then .error .invalidBSON
           else .ok (.datetime (toI64 (readU64 b)), b.drop 8)
    | 10 => .ok (.null, b)
    | 11 =>
        match takeCString b with
        | none => .error .invalidBSON
        | some (p, r1) =>
            match takeCString r1 with
            | none => .error .invalidBSON
            | some (f, r2) => .ok (.regex p f, r2)
    | 12 =>
        if b.length < 4 then .error .invalidBSON
        else
          let szI := toI32 (readU32 b)
          if szI < 1 then .error .invalidBSON
          else
            let sz := szI.toNat
            if b.length < 4 + sz + 12 then .error .invalidBSON
            else if (b.drop (4 + sz - 1)).take 1 ≠ [0] then .error .invalidBSON
            else .ok (.dbPointer ((b.drop 4).take (sz - 1))
              ((b.drop (4 + sz)).take 12), b.drop (4 + sz + 12))
    | 13 =>
        if b.length < 4 then .error .invalidBSON
        else
          let szI := toI32 (readU32 b)
          if szI < 1 then .error .invalidBSON
          else
            let sz := szI.toNat
            if b.length < 4 + sz then .error .invalidBSON
            else if (b.drop (4 + sz - 1)).take 1 ≠ [0] then .error .invalidBSON
            else .ok (.code ((b.drop 4).take (sz - 1)), b.drop (4 + sz))
    | 14 =>
        if b.length < 4 then .error .invalidBSON
        else
          let szI := toI32 (readU32 b)
          if szI < 1 then .error .invalidBSON
          else
            let sz := szI.toNat
            if b.length < 4 + sz then .error .invalidBSON
            else if (b.drop (4 + sz - 1)).take 1 ≠ [0] then .error .invalidBSON
            else .ok (.symbol ((b.drop 4).take (sz - 1)), b.drop (4 + sz))
    | 15 =>
        if b.length < 4 then .error .invalidBSON
        else if (b.length : Int) < toI32 (readU32 b) then .error .invalidBSON
        else
          if (b.drop 4).length < 4 then .error .invalidBSON
          else
            let szI := toI32 (readU32 (b.drop 4))
            if szI < 1 then .error .invalidBSON
            else
              let sz := szI.toNat
              if (b.drop 4).length < 4 + sz then .error .invalidBSON
              else if ((b.drop 4).drop (4 + sz - 1)).take 1 ≠ [0] then
                .error .invalidBSON
              else
                match prev.docF ((b.drop 4).drop (4 + sz)) with
                | .error e => .error e
                | .ok (d, rest) =>
                    .ok (.codeWScope (((b.drop 4).drop 4).take (sz - 1)) d, rest)
    | 16 => if b.length < 4 then .error .invalidBSON
            else .ok (.int32 (toI32 (readU32 b)), b.drop 4)
    | 17 => if b.length < 8 then .error .invalidBSON
            else .ok (.timestamp (readU64 b), b.drop 8)
    | 18 => if b.length < 8 then .error .invalidBSON
            else .ok (.int64 (toI64 (readU64 b)), b.drop 8)
    | 19 => if b.length < 16 then .error .invalidBSON
            else .ok (.decimal128 (b.take 16), b.drop 16)
    | 127 => .ok (.maxKey, b)
    | 255 => .ok (.minKey, b)
    | _ => .error .invalidBSON
  elems := fun b =>
    match b with
    | [] => .ok []
    | t :: r =>
        match takeCString r with
        | none => .error .invalidBSON
        | some (name, r1) =>
            match prev.val t r1 with
            | .error e => .error e
            | .ok (v, r2) =>
                match prev.elems r2 with
                | .error e => .error e
                | .ok tl =>
                    .ok ((name, applyDecodeHook co.transformer_registry v) :: tl)
  docF := fun b =>
    if b.length < 4 then .error .valueError
    else
      let szI := toI32 (readU32 b)
      if (b.length : Int) < szI then .error .invalidObjectSize
      else if szI < 5 then .error .invalidBSON
      else
        let sz := szI.toNat
        if (b.drop (sz - 1)).take 1 ≠ [0] then .error .badEoo
        else
          match prev.elems ((b.drop 4).take (sz - 5)) with
          | .error e => .error e
          | .ok elems => .ok (dictFromElems elems, b.drop sz)
  arrF := fun b =>
    if b.length < 4 then .error .valueError
    else
      let szI := toI32 (readU32 b)
      if (b.length : Int) < szI then .error .invalidObjectSize
      else if szI < 5 then .error .invalidBSON
      else
        let sz := szI.toNat
        if (b.drop (sz - 1)).take 1 ≠ [0] then .error .badEoo
        else
          match prev.elems ((b.drop 4).take (sz - 5)) with
          | .error e => .error e
          | .ok elems => .ok (elems.map Prod.snd, b.drop sz)

/-- The decoder bundle at a given fuel level. -/
def decoders (co : CodecOptions) : Nat → DecFuns
  | 0 => decBase
  | fuel + 1 => decStep co (decoders co fuel)

/-- Decode one value payload given its type tag (see decStep). -/
def getValue (co : CodecOptions) (fuel : Nat) (tag : Nat) (b : Bytes) :
    Except BsonError (Value × Bytes) :=
  (decoders co fuel).val tag b

/-- Decode an element region to its (name, value) pairs (see decStep). -/
def getElements (co : CodecOptions) (fuel : Nat) (b : Bytes) :
    Except BsonError (List (Bytes × Value)) :=
  (decoders co fuel).elems b

/-- Decode one framed document (see decStep). -/
def getDocument (co : CodecOptions) (fuel : Nat) (b : Bytes) :
    Except BsonError (Doc × Bytes) :=
  (decoders co fuel).docF b

/-- Decode one framed array body (see decStep). -/
def getArrayBody (co : CodecOptions) (fuel : Nat) (b : Bytes) :
    Except BsonError (List Value × Bytes) :=
  (decoders co fuel).arrF b

/-- Modelled from the spec (section 4.2): the bson_to_dict entry point of
    bson.pybson (part of this repository, not under src).  The fuel passed in
    strictly dominates the element count of any decodable buffer, so it never
    runs out on inputs the framing checks accept. -/
def bson_to_dict (data : Bytes) (co : CodecOptions) : Except BsonError Doc :=
  (getDocument co (data.length + 1) data).map Prod.fst

/-- The codec options argument of the BSON.encode and BSON.decode class
    methods, as any Python value: either an actual CodecOptions instance or
    some other object. -/
inductive PyCodecOptions where
  | valid (co : CodecOptions)
  | invalid

/-- Python-level errors surfaced by the BSON wrapper: a TypeError, an
    AttributeError (attribute access on an object lacking the attribute), or
    an error of the codec layer. -/
inductive PyError where
  | typeError
  | attributeError
  | bson (e : BsonError)
deriving DecidableEq, Repr

/-- The isinstance validation check of BSON.encode (src/bson/init, lines
    115-116) and BSON.decode (lines 160-161): for a non-CodecOptions argument
    the source evaluates the bare expression TypeError(...), which constructs
    the exception object.  This definition computes that constructed object;
    the callers below discard it, because the source never raises it. -/
def codecOptionsTypeCheck : PyCodecOptions → Option PyError
  | .valid _ => none
  | .invalid => some .typeError

/-- Embeds BSON.encode (src/bson/init, lines 91-118).  The validation check
    constructs a TypeError without raising it, so the call always proceeds
    into dict_to_bson; with an invalid options object the codec fails
    downstream on attribute access (modelled as an AttributeError), not with
    the TypeError of the check. -/
def BSONencode (document : Doc) (check_keys : Bool) (po : PyCodecOptions) :
    Except PyError Bytes :=
  let _dead := codecOptionsTypeCheck po
  match po with
  | .valid co => (dict_to_bson document check_keys co).mapError PyError.bson
  | .invalid => .error .attributeError

/-- Embeds BSON.decode (src/bson/init, lines 120-163), with the same dead
    TypeError validation check as BSONencode. -/
def BSONdecode (data : Bytes) (po : PyCodecOptions) : Except PyError Doc :=
  let _dead := codecOptionsTypeCheck po
  match po with
  | .valid co => (bson_to_dict data co).mapError PyError.bson
  | .invalid => .error .attributeError

/-- Embeds the mutable RawBSONDocument of src/bson/raw_bson_document.py: the
    private fields raw (the BSON byte buffer), inflated_doc (the memoized
    decoded mapping), codec_options and the dirty flag. -/
structure RawBSONDocument where
  raw : Bytes
  inflated_doc : Option Doc
  codec_options : CodecOptions
  dirty : Bool

/-- Embeds RawBSONDocument (src/bson/raw_bson_document.py, lines 33-50):
    stores the bytes, leaves the document uninflated, rebuilds the codec
    options keeping only tz_aware and uuid_representation (the CodecOptions
    constructor defaults supply the dict document class and the empty
    transformer registry), and starts clean.  Construction performs no
    validation of the buffer. -/
def RawBSONDocument.init (bson_bytes : Bytes) (codec_options : CodecOptions) :
    RawBSONDocument :=
  { raw := bson_bytes
    inflated_doc := none
    codec_options :=
      { tz_aware := codec_options.tz_aware
        document_class := DocClassK.dict
        uuid_representation := codec_options.uuid_representation
        transformer_registry := [] }
    dirty := false }

/-- Embeds the private inflated property (lines 62-66): decode the stored
    bytes with the stored codec options on first use and memoize the result.
    Returns the mapping together with the state of the object afterwards; on
    a decode error the exception propagates before the memoizing assignment,
    leaving the object unchanged. -/
def RawBSONDocument.inflate (st : RawBSONDocument) :
    Except BsonError Doc × RawBSONDocument :=
  match st.inflated_doc with
  | some d => (.ok d, st)
  | none =>
      match bson_to_dict st.raw st.codec_options with
      | .error e => (.error e, st)
      | .ok d => (.ok d, { st with inflated_doc := some d })

/-- Embeds the getitem operation (lines 68-69): read a field from the
    inflated mapping, raising KeyError when absent. -/
def RawBSONDocument.getitem (st : RawBSONDocument) (item : Bytes) :
    Except BsonError Value × RawBSONDocument :=
  match st.inflate with
  | (.error e, st1) => (.error e, st1)
  | (.ok d, st1) =>
      match dlookup d item with
      | some v => (.ok v, st1)
      | none => (.error .keyError, st1)

/-- Embeds the setitem operation (lines 71-73): bind the item in the inflated
    mapping (forcing inflation) and mark the view dirty.  An inflation error
    propagates before either assignment. -/
def RawBSONDocument.setitem (st : RawBSONDocument) (item : Bytes) (value : Value) :
    Except BsonError Unit × RawBSONDocument :=
  match st.inflate with
  | (.error e, st1) => (.error e, st1)
  | (.ok d, st1) =>
      (.ok (), { st1 with inflated_doc := some (dictSet d item value), dirty := true })

/-- Embeds the delitem operation (lines 75-77): delete the item from the
    inflated mapping and mark the view dirty; a KeyError for an absent item
    propagates before the dirty assignment. -/
def RawBSONDocument.delitem (st : RawBSONDocument) (item : Bytes) :
    Except BsonError Unit × RawBSONDocument :=
  match st.inflate with
  | (.error e, st1) => (.error e, st1)
  | (.ok d, st1) =>
      if hasKey d item then
        (.ok (), { st1 with inflated_doc := some (dictDel d item), dirty := true })
      else (.error .keyError, st1)

/-- Embeds the len operation (lines 79-80), which forces inflation. -/
def RawBSONDocument.lenOp (st : RawBSONDocument) :
    Except BsonError Nat × RawBSONDocument :=
  match st.inflate with
  | (.error e, st1) => (.error e, st1)
  | (.ok d, st1) => (.ok d.length, st1)

/-- Embeds the iter operation (lines 82-83), which forces inflation and
    yields the keys. -/
def RawBSONDocument.keysOp (st : RawBSONDocument) :
    Except BsonError (List Bytes) × RawBSONDocument :=
  match st.inflate with
  | (.error e, st1) => (.error e, st1)
  | (.ok d, st1) => (.ok (d.map Prod.fst), st1)

/-- Embeds the raw property (src/bson/raw_bson_document.py, lines 52-60):
    when dirty, re-encode the inflated mapping with the stored codec options,
    cache the result as the new raw buffer and clear the dirty flag; when
    clean, return the stored buffer verbatim.  A re-encode error propagates
    before either assignment, leaving the object unchanged.  A dirty view
    always has an inflated mapping through the public operations; the
    impossible dirty-but-uninflated state maps the Python None argument to a
    failed encode. -/
def RawBSONDocument.rawProp (st : RawBSONDocument) :
    Except BsonError Bytes × RawBSONDocument :=
  if st.dirty then
    match st.inflated_doc with
    | none => (.error .invalidDocument, st)
    | some d =>
        match dict_to_bson d false st.codec_options with
        | .error e => (.error e, st)
        | .ok b => (.ok b, { st with raw := b, dirty := false })
  else (.ok st.raw, st)

/-- The non-mutating operations of the mutable view: field reads, length,
    key iteration and the raw property. -/
inductive ReadOp where
  | get (k : Bytes)
  | len
  | keys
  | rawBytes

/-- State of the view after one non-mutating operation (a Python exception
    leaves the object in the state the operation had produced so far). -/
def applyReadOp (st : RawBSONDocument) : ReadOp → RawBSONDocument
  | .get k => (st.getitem k).2
  | .len => st.lenOp.2
  | .keys => st.keysOp.2
  | .rawBytes => st.rawProp.2

/-- State of the view after a sequence of non-mutating operations. -/
def applyReadOps (st : RawBSONDocument) : List ReadOp → RawBSONDocument
  | [] => st
  | op :: tl => applyReadOps (applyReadOp st op) tl

/-- Every operation of the mutable view, mutations included. -/
inductive AnyOp where
  | get (k : Bytes)
  | set (k : Bytes) (v : Value)
  | del (k : Bytes)
  | len
  | keys
  | rawBytes

/-- State of the view after one operation of any kind. -/
def applyAnyOp (st : RawBSONDocument) : AnyOp → RawBSONDocument
  | .get k => (st.getitem k).2
  | .set k v => (st.setitem k v).2
  | .del k => (st.delitem k).2
  | .len => st.lenOp.2
  | .keys => st.keysOp.2
  | .rawBytes => st.rawProp.2

/-- State of the view after a sequence of operations of any kind. -/
def applyAnyOps (st : RawBSONDocument) : List AnyOp → RawBSONDocument
  | [] => st
  | op :: tl => applyAnyOps (applyAnyOp st op) tl

/-- A value produced by the lazy decoding paths of src/bson/raw_bson.py: an
    eagerly decoded non-container value, or a lazily wrapped sub-document or
    sub-array.  The rawDoc alternative denotes the freshly constructed
    read-only RawBSONDocument over the slice with the given options, and
    rawArr the freshly constructed RawBSONIterator; carrying the slice and
    the options keeps the type non-recursive. -/
inductive IterVal where
  | value (v : Value)
  | rawDoc (raw : Bytes) (co : CodecOptions)
  | rawArr (raw : Bytes) (co : CodecOptions)

/-- Python bytes.index of a NUL byte searching from a start position:
    the absolute index of the first NUL at or after the position, or none
    (Python raises ValueError). -/
def findNulFrom (data : Bytes) (pos : Nat) : Option Nat :=
  ((data.drop pos).findIdx? (fun x => x = 0)).map (fun i => pos + i)

/-- Modelled from the spec (sections 4.4 and 4.5): the element getter used by
    the lazy paths, which all run under raw-marked options.  A sub-document
    or sub-array is bound-checked against the region end and wrapped as a
    lazy view over its slice without being decoded; every other tag decodes
    eagerly through the element codec, bound-checked against the remaining
    buffer.  Returns the value and the position after the element. -/
def getValueLazy (data : Bytes) (position : Nat) (maxB : Nat) (tag : Nat)
    (co : CodecOptions) : Except BsonError (IterVal × Nat) :=
  if tag = 3 ∨ tag = 4 then
    if data.length < position + 4 then .error .invalidBSON
    else
      let szI := toI32 (readU32 (data.drop position))
      if szI < 5 then .error .invalidBSON
      else
        let sz := szI.toNat
        if maxB < position + sz then .error .invalidBSON
        else if tag = 3 then .ok (.rawDoc ((data.drop position).take sz) co, position + sz)
        else .ok (.rawArr ((data.drop position).take sz) co, position + sz)
  else
    match getValue co (data.length + 1) tag (data.drop position) with
    | .error e => .error e
    | .ok (v, rest) =>
        .ok (.value (applyDecodeHook co.transformer_registry v), data.length - rest.length)

/-- Modelled from the spec (section 4.1, decodeElement): read the type tag at
    the position, scan the NUL-terminated name, then decode the value with
    the lazy getter.  This embeds the element_to_dict entry point of
    bson.pybson (part of this repository, not under src) as used by the lazy
    document of src/bson/raw_bson.py. -/
def element_to_dict (data : Bytes) (position : Nat) (maxB : Nat)
    (co : CodecOptions) : Except BsonError (Bytes × IterVal × Nat) :=
  let tag := (data.drop position).headI
  match takeCString (data.drop (position + 1)) with
  | none => .error .invalidBSON
  | some (name, _) =>
      match getValueLazy data (position + 1 + name.length + 1) maxB tag co with
      | .error e => .error e
      | .ok (v, p2) => .ok (name, v, p2)

/-- The element loop of the lazy document (src/bson/raw_bson.py, lines
    127-132): from position 4, while the position is before the terminator,
    decode one element and continue from the returned position.  The fuel
    only bounds the loop; the public callers pass the buffer length, which
    dominates the element count because every element advances the position. -/
def rawDocLoop (data : Bytes) (co : CodecOptions) (objSize objEnd : Nat) :
    Nat → Nat → Except BsonError (List (Bytes × IterVal))
  | 0, _ => .error .invalidBSON
  | fuel + 1, position =>
    if position < objEnd then
      match element_to_dict data position objSize co with
      | .error e => .error e
      | .ok (name, v, p2) =>
          match rawDocLoop data co objSize objEnd fuel p2 with
          | .error e => .error e
          | .ok tl => .ok ((name, v) :: tl)
    else .ok []

/-- Embeds the items generator of the read-only RawBSONDocument
    (src/bson/raw_bson.py, lines 114-132), run to completion: read the
    declared size with UNPACK_INT, raise the invalid-object-size error when
    the buffer is shorter than it, raise the bad-eoo error when the byte at
    declaredSize - 1 is not NUL, then decode elements from offset 4.  The
    Python slice at obj_end is modelled for nonnegative obj_end; a declared
    size below 1 also fails the terminator comparison there. -/
def rawDocItems (raw : Bytes) (co : CodecOptions) :
    Except BsonError (List (Bytes × IterVal)) :=
  if raw.length < 4 then .error .valueError
  else
    let objSizeI := toI32 (readU32 raw)
    if (raw.length : Int) < objSizeI then .error .invalidObjectSize
    else
      if 1 ≤ objSizeI ∧ (raw.drop (objSizeI.toNat - 1)).take 1 = [0] then
        rawDocLoop raw co objSizeI.toNat (objSizeI.toNat - 1) raw.length 4
      else .error .badEoo

/-- Embeds the read-only RawBSONDocument of src/bson/raw_bson.py (lines
    80-162): the raw bytes, the memoized inflated mapping of lazy values, and
    the stored codec options. -/
structure ReadOnlyRawBSONDocument where
  raw : Bytes
  inflated_doc : Option (List (Bytes × IterVal))
  codec_options : CodecOptions

/-- Embeds the read-only constructor (src/bson/raw_bson.py, lines 92-107):
    stores the bytes unvalidated and rebuilds the codec options with the
    document class forced to RawBSONDocument itself, keeping only tz_aware
    and uuid_representation of the supplied options (the constructor defaults
    supply the empty transformer registry). -/
def ReadOnlyRawBSONDocument.init (bson_bytes : Bytes) (codec_options : CodecOptions) :
    ReadOnlyRawBSONDocument :=
  { raw := bson_bytes
    inflated_doc := none
    codec_options :=
      { tz_aware := codec_options.tz_aware
        document_class := DocClassK.rawBSONDocument
        uuid_representation := codec_options.uuid_representation
        transformer_registry := [] } }

/-- Embeds the raw property of the read-only view (src/bson/raw_bson.py,
    lines 109-112): the stored buffer, returned verbatim unconditionally. -/
def ReadOnlyRawBSONDocument.rawProp (st : ReadOnlyRawBSONDocument) : Bytes :=
  st.raw

/-- Python dict insertion for lazily decoded values. -/
def dictSetIV (d : List (Bytes × IterVal)) (k : Bytes) (v : IterVal) :
    List (Bytes × IterVal) :=
  match d with
  | [] => [(k, v)]
  | (k1, v1) :: tl => if k1 = k then (k, v) :: tl else (k1, v1) :: dictSetIV tl k v

/-- Embeds the private inflated property of the read-only view (lines
    134-138): build a dict from the items generator on first use and memoize
    it; a decode error propagates before the assignment. -/
def ReadOnlyRawBSONDocument.inflate (st : ReadOnlyRawBSONDocument) :
    Except BsonError (List (Bytes × IterVal)) × ReadOnlyRawBSONDocument :=
  match st.inflated_doc with
  | some d => (.ok d, st)
  | none =>
      match rawDocItems st.raw st.codec_options with
      | .error e => (.error e, st)
      | .ok items =>
          let d := items.foldl (fun acc p => dictSetIV acc p.1 p.2) []
          (.ok d, { st with inflated_doc := some d })

/-- Embeds the RawBSONIterator of src/bson/raw_bson.py (lines 27-77): the
    array bytes, the rebuilt codec options, and the generator state — none
    before the first next call, afterwards the remaining yielded values (an
    exhausted or failed generator is the empty remainder). -/
structure RawBSONIterator where
  data : Bytes
  codec_options : CodecOptions
  iterator : Option (List IterVal)

/-- Embeds the iterator constructor (src/bson/raw_bson.py, lines 35-42):
    stores the bytes unvalidated and rebuilds the codec options with the
    document class forced to RawBSONDocument, keeping only tz_aware and
    uuid_representation. -/
def RawBSONIterator.init (data : Bytes) (codec_options : CodecOptions) :
    RawBSONIterator :=
  { data := data
    codec_options :=
      { tz_aware := codec_options.tz_aware
        document_class := DocClassK.rawBSONDocument
        uuid_representation := codec_options.uuid_representation
        transformer_registry := [] }
    iterator := none }

/-- The element loop of the iterator generator (src/bson/raw_bson.py, lines
    64-71): read the type tag at the position, skip the key by scanning for
    the next NUL from the tag position, then decode the value with the
    element getter bound by list_end. -/
def rawIterLoop (data : Bytes) (co : CodecOptions) (listEnd : Nat) :
    Nat → Nat → Except BsonError (List IterVal)
  | 0, _ => .error .invalidBSON
  | fuel + 1, position =>
    if position < listEnd then
      let tag := (data.drop position).headI
      match findNulFrom data position with
      | none => .error .valueError
      | some p1 =>
          match getValueLazy data (p1 + 1) listEnd tag co with
          | .error e => .error e
          | .ok (v, p2) =>
              match rawIterLoop data co listEnd fuel p2 with
              | .error e => .error e
              | .ok tl => .ok (v :: tl)
    else .ok []

/-- Embeds the iterator generator (src/bson/raw_bson.py, lines 55-71), run to
    completion: the same declared-size and terminator checks as the lazy
    document, then the element loop from offset 4 bound by list_end. -/
def rawIterItems (data : Bytes) (co : CodecOptions) :
    Except BsonError (List IterVal) :=
  if data.length < 4 then .error .valueError
  else
    let listSizeI := toI32 (readU32 data)
    if (data.length : Int) < listSizeI then .error .invalidObjectSize
    else
      if 1 ≤ listSizeI ∧ (data.drop (listSizeI.toNat - 1)).take 1 = [0] then
        rawIterLoop data co (listSizeI.toNat - 1) data.length 4
      else .error .badEoo

/-- Embeds the next method (src/bson/raw_bson.py, lines 48-53): the first
    call creates the generator (running it to its first yield, so the
    framing checks fire here); later calls pull from the remaining sequence.
    An exhausted, or failed, generator raises StopIteration on every further
    call. -/
def RawBSONIterator.next (st : RawBSONIterator) :
    Except BsonError IterVal × RawBSONIterator :=
  let items : Except BsonError (List IterVal) :=
    match st.iterator with
    | some l => .ok l
    | none => rawIterItems st.data st.codec_options
  match items with
  | .error e => (.error e, { st with iterator := some [] })
  | .ok [] => (.error .stopIteration, { st with iterator := some [] })
  | .ok (v :: tl) => (.ok v, { st with iterator := some tl })

theorem encU32LE_length (n : Nat) : (encU32LE n).length = 4 := rfl

theorem encU64LE_length (n : Nat) : (encU64LE n).length = 8 := rfl

theorem readU32_encU32 (n : Nat) (r : Bytes) :
    readU32 (encU32LE n ++ r) = n % 4294967296 := by
  show n % 256 + 256 * (n / 256 % 256 + 256 * (n / 65536 % 256 +
    256 * (n / 16777216 % 256))) = n % 4294967296
  omega

theorem readU64_encU64 (n : Nat) (r : Bytes) :
    readU64 (encU64LE n ++ r) = n % 18446744073709551616 := by
  show n % 256 + 256 * (n / 256 % 256 + 256 * (n / 65536 % 256 + 256 *
    (n / 16777216 % 256 + 256 * (n / 4294967296 % 256 + 256 *
    (n / 1099511627776 % 256 + 256 * (n / 281474976710656 % 256 + 256 *
    (n / 72057594037927936 % 256))))))) = n % 18446744073709551616
  omega

theorem toI32_readU32_encI32 (i : Int) (r : Bytes)
    (h1 : -2147483648 ≤ i) (h2 : i < 2147483648) :
    toI32 (readU32 (encI32 i ++ r)) = i := by
  unfold encI32
  rw [readU32_encU32]
  unfold toI32
  split <;> omega

theorem toI64_readU64_encI64 (i : Int) (r : Bytes)
    (h1 : -9223372036854775808 ≤ i) (h2 : i < 9223372036854775808) :
    toI64 (readU64 (encI64 i ++ r)) = i := by
  unfold encI64
  rw [readU64_encU64]
  unfold toI64
  split <;> omega

theorem readU64_encU64_eq (n : Nat) (r : Bytes) (h : n < 18446744073709551616) :
    readU64 (encU64LE n ++ r) = n := by
  rw [readU64_encU64]; omega

theorem takeCString_spec (n : Bytes) (r : Bytes) (h : 0 ∉ n) :
    takeCString (n ++ 0 :: r) = some (n, r) := by
  induction n with
  | nil => rfl
  | cons a tl ih =>
      have ha : ¬ a = 0 := fun hh => h (hh ▸ List.mem_cons_self a tl)
      have htl : 0 ∉ tl := fun hh => h (List.mem_cons_of_mem a hh)
      show (if a = 0 then some ([], tl ++ 0 :: r)
            else (takeCString (tl ++ 0 :: r)).map (fun p => (a :: p.1, p.2))) =
        some (a :: tl, r)
      rw [if_neg ha, ih htl]
      rfl

theorem natDecimalAux_ge (f n : Nat) : ∀ b ∈ natDecimalAux f n, 48 ≤ b := by
  induction f generalizing n with
  | zero => intro b hb; simp [natDecimalAux] at hb
  | succ f ih =>
      intro b hb
      unfold natDecimalAux at hb
      split at hb
      · simp at hb; omega
      · rcases List.mem_append.mp hb with h1 | h1
        · exact ih _ _ h1
        · simp at h1; omega

theorem natDecimal_no_zero (i : Nat) : 0 ∉ natDecimal i := by
  intro h
  have := natDecimalAux_ge (i + 1) i 0 h
  omega

theorem natDecimal_contains_zero (i : Nat) : (natDecimal i).contains 0 = false := by
  simp [natDecimal_no_zero i]

theorem applyDecodeHook_nil (v : Value) : applyDecodeHook [] v = v := rfl

theorem hasKey_append (a b : Doc) (k : Bytes) :
    hasKey (a ++ b) k = (hasKey a k || hasKey b k) := by
  induction a with
  | nil => simp [hasKey]
  | cons p tl ih =>
      rcases p with ⟨k1, v1⟩
      by_cases h : k1 = k
      · simp [hasKey, h]
      · simp [hasKey, h, ih]

theorem dictSet_append_fresh (d : Doc) (k : Bytes) (v : Value)
    (h : hasKey d k = false) : dictSet d k v = d ++ [(k, v)] := by
  induction d with
  | nil => rfl
  | cons p tl ih =>
      rcases p with ⟨k1, v1⟩
      unfold hasKey at h
      by_cases hk : k1 = k
      · simp [hk] at h
      · simp only [dictSet, if_neg hk, List.cons_append]
        rw [ih (by simpa [hk] using h)]

theorem noDupKeys_head_fresh (acc : Doc) (k : Bytes) (v : Value) (tl : Doc)
    (h : noDupKeys (acc ++ (k, v) :: tl) = true) : hasKey acc k = false := by
  induction acc with
  | nil => rfl
  | cons p a ih =>
      rcases p with ⟨k1, v1⟩
      rw [List.cons_append] at h
      have h2 : (!(hasKey (a ++ (k, v) :: tl) k1) && noDupKeys (a ++ (k, v) :: tl)) = true := h
      obtain ⟨h3, h4⟩ := (Bool.and_eq_true _ _).mp h2
      have h5 : hasKey (a ++ (k, v) :: tl) k1 = false := by
        cases hcc : hasKey (a ++ (k, v) :: tl) k1
        · rfl
        · rw [hcc] at h3; exact absurd h3 (by decide)
      by_cases hk : k1 = k
      · rw [hasKey_append] at h5
        simp [hasKey, hk] at h5
      · simp only [hasKey, if_neg hk]
        exact ih h4

theorem foldl_dictSet_nodup (d : Doc) : ∀ acc : Doc,
    noDupKeys (acc ++ d) = true →
    List.foldl (fun a p => dictSet a p.1 p.2) acc d = acc ++ d := by
  induction d with
  | nil => intro acc _; simp
  | cons p tl ih =>
      intro acc h
      rcases p with ⟨k, v⟩
      have hfresh : hasKey acc k = false := noDupKeys_head_fresh acc k v tl h
      simp only [List.foldl_cons]
      rw [dictSet_append_fresh acc k v hfresh]
      have hassoc : (acc ++ [(k, v)]) ++ tl = acc ++ (k, v) :: tl := by simp
      rw [ih (acc ++ [(k, v)]) (by rw [hassoc]; exact h), hassoc]

theorem dictFromElems_self (d : Doc) (h : noDupKeys d = true) :
    dictFromElems d = d := by
  unfold dictFromElems
  have := foldl_dictSet_nodup d [] (by simpa using h)
  simpa using this

theorem docWF_parts {d : Doc} (h : docWF d = true) :
    noDupKeys d = true ∧ fieldsWF d = true ∧ 5 + elemsSize d ≤ 2147483647 := by
  unfold docWF at h
  obtain ⟨h1, h3⟩ := (Bool.and_eq_true _ _).mp h
  obtain ⟨h1a, h1b⟩ := (Bool.and_eq_true _ _).mp h1
  exact ⟨h1a, h1b, by simpa using h3⟩

theorem fieldsWF_cons {n : Bytes} {v : Value} {tl : List (Bytes × Value)}
    (h : fieldsWF ((n, v) :: tl) = true) :
    n.contains 0 = false ∧ Value.wf v = true ∧ fieldsWF tl = true := by
  unfold fieldsWF at h
  obtain ⟨h1, h3⟩ := (Bool.and_eq_true _ _).mp h
  obtain ⟨h1a, h1b⟩ := (Bool.and_eq_true _ _).mp h1
  refine ⟨?_, h1b, h3⟩
  cases hc : n.contains 0
  · rfl
  · rw [hc] at h1a; exact absurd h1a (by decide)

theorem valuesWF_cons {v : Value} {tl : List Value}
    (h : valuesWF (v :: tl) = true) :
    Value.wf v = true ∧ valuesWF tl = true := by
  unfold valuesWF at h
  exact (Bool.and_eq_true _ _).mp h

theorem arrWF_parts {l : List Value} (h : Value.wf (.arr l) = true) :
    valuesWF l = true ∧ 5 + arrElemsSize 0 l ≤ 2147483647 := by
  unfold Value.wf at h
  obtain ⟨h1, h2⟩ := (Bool.and_eq_true _ _).mp h
  exact ⟨h1, by simpa using h2⟩

theorem regexWF_parts {p f : Bytes} (h : Value.wf (Value.regex p f) = true) :
    p.contains 0 = false ∧ f.contains 0 = false := by
  unfold Value.wf at h
  obtain ⟨h1, h2⟩ := (Bool.and_eq_true _ _).mp h
  constructor
  · cases hc : p.contains 0
    · rfl
    · rw [hc] at h1
      exact absurd h1 (by decide)
  · cases hc : f.contains 0
    · rfl
    · rw [hc] at h2
      exact absurd h2 (by decide)

theorem cwsWF_parts {s : Bytes} {scope : Doc}
    (h : Value.wf (Value.codeWScope s scope) = true) :
    s.length + 1 ≤ 2147483647 ∧ docWF scope = true ∧
      4 + (4 + s.length + 1) + (5 + elemsSize scope) ≤ 2147483647 := by
  unfold Value.wf at h
  obtain ⟨h1, h3⟩ := (Bool.and_eq_true _ _).mp h
  obtain ⟨h1a, h1b⟩ := (Bool.and_eq_true _ _).mp h1
  exact ⟨by simpa using h1a, h1b, by simpa using h3⟩

mutual

/-- Encoding a well-formed value succeeds and emits exactly payloadSize
    bytes. -/
def putValueLen (co : CodecOptions) : (v : Value) → Value.wf v = true →
    ∃ p, putValue co v = Except.ok p ∧ p.length = payloadSize v
  | .double pl, _ => ⟨pl, by simp [putValue], by simp [payloadSize]⟩
  | .string s, _ =>
      ⟨encU32LE (s.length + 1) ++ (s ++ [0]), by simp [putValue], by
        simp [payloadSize, encU32LE]; omega⟩
  | .doc d, h => by
      have hd : docWF d = true := by simpa [Value.wf] using h
      have hf : fieldsWF d = true := (docWF_parts hd).2.1
      obtain ⟨body, hb, hlen⟩ := putElementsLen co d hf
      refine ⟨encU32LE (body.length + 5) ++ (body ++ [0]), ?_, ?_⟩
      · simp [putValue, hb]
        rfl
      · simp [payloadSize, encU32LE, hlen]; omega
  | .arr l, h => by
      have hf : valuesWF l = true := (arrWF_parts h).1
      obtain ⟨body, hb, hlen⟩ := putArrLen co 0 l hf
      refine ⟨encU32LE (body.length + 5) ++ (body ++ [0]), ?_, ?_⟩
      · simp [putValue, hb]
        rfl
      · simp [payloadSize, encU32LE, hlen]; omega
  | .binary st b, _ =>
      ⟨encU32LE b.length ++ st :: b, by simp [putValue], by
        simp [payloadSize, encU32LE]; omega⟩
  | .undefined, _ => ⟨[], by simp [putValue], by simp [payloadSize]⟩
  | .regex p f, _ =>
      ⟨p ++ [0] ++ f ++ [0], by simp [putValue], by
        simp [payloadSize]; omega⟩
  | .dbPointer ns oid, _ =>
      ⟨encU32LE (ns.length + 1) ++ ns ++ [0] ++ oid, by simp [putValue], by
        simp [payloadSize, encU32LE]; omega⟩
  | .code s, _ =>
      ⟨encU32LE (s.length + 1) ++ s ++ [0], by simp [putValue], by
        simp [payloadSize, encU32LE]; omega⟩
  | .symbol s, _ =>
      ⟨encU32LE (s.length + 1) ++ s ++ [0], by simp [putValue], by
        simp [payloadSize, encU32LE]; omega⟩
  | .codeWScope s scope, h => by
      have hparts : (s.length + 1 ≤ 2147483647 ∧ docWF scope = true) ∧
          4 + (4 + s.length + 1) + (5 + elemsSize scope) ≤ 2147483647 := by
        simpa [Value.wf, Bool.and_eq_true] using h
      have hf : fieldsWF scope = true := (docWF_parts hparts.1.2).2.1
      obtain ⟨body, hb, hlen⟩ := putElementsLen co scope hf
      refine ⟨encU32LE (4 + (4 + s.length + 1) + (body.length + 5)) ++
        (encU32LE (s.length + 1) ++ s ++ [0]) ++
        (encU32LE (body.length + 5) ++ body ++ [0]), ?_, ?_⟩
      · simp [putValue, hb]
        rfl
      · simp [payloadSize, encU32LE, hlen]
        omega
  | .objectId b, _ => ⟨b, by simp [putValue], by simp [payloadSize]⟩
  | .bool t, _ => ⟨[if t then 1 else 0], by simp [putValue], by simp [payloadSize]⟩
  | .datetime ms, _ =>
      ⟨encI64 ms, by simp [putValue], by simp [payloadSize, encI64, encU64LE]⟩
  | .null, _ => ⟨[], by simp [putValue], by simp [payloadSize]⟩
  | .int32 i, _ =>
      ⟨encI32 i, by simp [putValue], by simp [payloadSize, encI32, encU32LE]⟩
  | .timestamp t, _ =>
      ⟨encU64LE t, by simp [putValue], by simp [payloadSize, encU64LE]⟩
  | .int64 i, _ =>
      ⟨encI64 i, by simp [putValue], by simp [payloadSize, encI64, encU64LE]⟩
  | .decimal128 pl, _ => ⟨pl, by simp [putValue], by simp [payloadSize]⟩
  | .minKey, _ => ⟨[], by simp [putValue], by simp [payloadSize]⟩
  | .maxKey, _ => ⟨[], by simp [putValue], by simp [payloadSize]⟩

/-- Encoding a well-formed field list without check keys succeeds and emits
    exactly elemsSize bytes. -/
def putElementsLen (co : CodecOptions) : (d : List (Bytes × Value)) →
    fieldsWF d = true →
    ∃ b, putElements co false d = Except.ok b ∧ b.length = elemsSize d
  | [], _ => ⟨[], by simp [putElements], by simp [elemsSize]⟩
  | (n, v) :: tl, h => by
      obtain ⟨hn, hv, htl⟩ := fieldsWF_cons h
      have hn0 : (0 : Nat) ∉ n := by simpa using hn
      obtain ⟨p, hp, hplen⟩ := putValueLen co v hv
      obtain ⟨rest, hr, hrlen⟩ := putElementsLen co tl htl
      refine ⟨(tagOf v :: (n ++ 0 :: p)) ++ rest, ?_, ?_⟩
      · simp [putElements, putElement, hn0, hp, hr]
        show Except.ok ((tagOf v :: (n ++ 0 :: p)) ++ rest) =
          Except.ok (tagOf v :: (n ++ 0 :: (p ++ rest)))
        simp
      · simp [elemsSize, hplen, hrlen]; omega

/-- Encoding well-formed array members succeeds and emits exactly
    arrElemsSize bytes. -/
def putArrLen (co : CodecOptions) : (i : Nat) → (l : List Value) →
    valuesWF l = true →
    ∃ b, putArrElems co i l = Except.ok b ∧ b.length = arrElemsSize i l
  | _, [], _ => ⟨[], by simp [putArrElems], by simp [arrElemsSize]⟩
  | i, v :: tl, h => by
      obtain ⟨hv, htl⟩ := valuesWF_cons h
      obtain ⟨p, hp, hplen⟩ := putValueLen co v hv
      obtain ⟨rest, hr, hrlen⟩ := putArrLen co (i + 1) tl htl
      refine ⟨(tagOf v :: (natDecimal i ++ 0 :: p)) ++ rest, ?_, ?_⟩
      · simp [putArrElems, putElement, natDecimal_no_zero, hp, hr]
        show Except.ok ((tagOf v :: (natDecimal i ++ 0 :: p)) ++ rest) =
          Except.ok (tagOf v :: (natDecimal i ++ 0 :: (p ++ rest)))
        simp
      · simp [arrElemsSize, hplen, hrlen]; omega

end

mutual

/-- Every error of the value encoder is the document-validation error. -/
def putValueErr (co : CodecOptions) : (v : Value) → (e : BsonError) →
    putValue co v = Except.error e → e = BsonError.invalidDocument
  | .double _, _, h => by simp [putValue] at h
  | .string _, _, h => by simp [putValue] at h
  | .doc d, e, h => by
      cases hb : putElements co false d with
      | error e2 =>
          rw [putValue, hb] at h
          have h2 : (Except.error e2 : Except BsonError Bytes) = Except.error e := h
          injection h2 with h3
          rw [← h3]
          exact putElementsErr co false d e2 hb
      | ok body =>
          rw [putValue, hb] at h
          exact Except.noConfusion
            (h : (Except.ok _ : Except BsonError Bytes) = Except.error e)
  | .arr l, e, h => by
      cases hb : putArrElems co 0 l with
      | error e2 =>
          rw [putValue, hb] at h
          have h2 : (Except.error e2 : Except BsonError Bytes) = Except.error e := h
          injection h2 with h3
          rw [← h3]
          exact putArrErr co 0 l e2 hb
      | ok body =>
          rw [putValue, hb] at h
          exact Except.noConfusion
            (h : (Except.ok _ : Except BsonError Bytes) = Except.error e)
  | .binary _ _, _, h => by simp [putValue] at h
  | .undefined, _, h => by simp [putValue] at h
  | .regex _ _, _, h => by simp [putValue] at h
  | .dbPointer _ _, _, h => by simp [putValue] at h
  | .code _, _, h => by simp [putValue] at h
  | .symbol _, _, h => by simp [putValue] at h
  | .codeWScope s scope, e, h => by
      cases hb : putElements co false scope with
      | error e2 =>
          rw [putValue, hb] at h
          have h2 : (Except.error e2 : Except BsonError Bytes) = Except.error e := h
          injection h2 with h3
          rw [← h3]
          exact putElementsErr co false scope e2 hb
      | ok body =>
          rw [putValue, hb] at h
          exact Except.noConfusion
            (h : (Except.ok _ : Except BsonError Bytes) = Except.error e)
  | .objectId _, _, h => by simp [putValue] at h
  | .bool _, _, h => by simp [putValue] at h
  | .datetime _, _, h => by simp [putValue] at h
  | .null, _, h => by simp [putValue] at h
  | .int32 _, _, h => by simp [putValue] at h
  | .timestamp _, _, h => by simp [putValue] at h
  | .int64 _, _, h => by simp [putValue] at h
  | .decimal128 _, _, h => by simp [putValue] at h
  | .minKey, _, h => by simp [putValue] at h
  | .maxKey, _, h => by simp [putValue] at h

/-- Every error of the element encoder is the document-validation error. -/
def putElementErr (co : CodecOptions) (ck : Bool) (n : Bytes) :
    (v : Value) → (e : BsonError) →
    putElement co ck n v = Except.error e → e = BsonError.invalidDocument := by
  intro v e h
  rw [putElement] at h
  by_cases h1 : (ck && badKeyB n) = true
  · rw [if_pos h1] at h
    exact ((Except.error.injEq _ _).mp h).symm
  · rw [if_neg h1] at h
    by_cases h2 : (n.contains 0) = true
    · rw [if_pos h2] at h
      exact ((Except.error.injEq _ _).mp h).symm
    · rw [if_neg h2] at h
      cases hv : putValue co v with
      | error e2 =>
          rw [hv] at h
          have h3 : (Except.error e2 : Except BsonError Bytes) = Except.error e := h
          injection h3 with h4
          rw [← h4]
          exact putValueErr co v e2 hv
      | ok p =>
          rw [hv] at h
          exact Except.noConfusion
            (h : (Except.ok _ : Except BsonError Bytes) = Except.error e)

/-- Every error of the field-list encoder is the document-validation error. -/
def putElementsErr (co : CodecOptions) (ck : Bool) :
    (d : List (Bytes × Value)) → (e : BsonError) →
    putElements co ck d = Except.error e → e = BsonError.invalidDocument
  | [], _, h => by simp [putElements] at h
  | (n, v) :: tl, e, h => by
      rw [putElements] at h
      cases he : putElement co ck n v with
      | error e1 =>
          rw [he] at h
          have h3 : (Except.error e1 : Except BsonError Bytes) = Except.error e := h
          injection h3 with h4
          rw [← h4]
          exact putElementErr co ck n v e1 he
      | ok p =>
          rw [he] at h
          cases hr : putElements co ck tl with
          | error e2 =>
              rw [hr] at h
              have h3 : (Except.error e2 : Except BsonError Bytes) = Except.error e := h
              injection h3 with h4
              rw [← h4]
              exact putElementsErr co ck tl e2 hr
          | ok rest =>
              rw [hr] at h
              exact Except.noConfusion
                (h : (Except.ok _ : Except BsonError Bytes) = Except.error e)

/-- Every error of the array-members encoder is the document-validation
    error. -/
def putArrErr (co : CodecOptions) : (i : Nat) → (l : List Value) →
    (e : BsonError) →
    putArrElems co i l = Except.error e → e = BsonError.invalidDocument
  | _, [], _, h => by simp [putArrElems] at h
  | i, v :: tl, e, h => by
      rw [putArrElems] at h
      cases he : putElement co false (natDecimal i) v with
      | error e1 =>
          rw [he] at h
          have h3 : (Except.error e1 : Except BsonError Bytes) = Except.error e := h
          injection h3 with h4
          rw [← h4]
          exact putElementErr co false (natDecimal i) v e1 he
      | ok p =>
          rw [he] at h
          cases hr : putArrElems co (i + 1) tl with
          | error e2 =>
              rw [hr] at h
              have h3 : (Except.error e2 : Except BsonError Bytes) = Except.error e := h
              injection h3 with h4
              rw [← h4]
              exact putArrErr co (i + 1) tl e2 hr
          | ok rest =>
              rw [hr] at h
              exact Except.noConfusion
                (h : (Except.ok _ : Except BsonError Bytes) = Except.error e)

end

theorem putElements_badkey (co : CodecOptions) (d : List (Bytes × Value))
    (hbad : ∃ p ∈ d, badKeyB p.1 = true) :
    ∃ e, putElements co true d = Except.error e := by
  induction d with
  | nil =>
      rcases hbad with ⟨p, hp, _⟩
      exact absurd hp (List.not_mem_nil p)
  | cons q tl ih =>
      rcases hbad with ⟨p, hp, hb⟩
      rcases q with ⟨n, v⟩
      by_cases hn : badKeyB n = true
      · refine ⟨BsonError.invalidDocument, ?_⟩
        rw [putElements]
        have he : putElement co true n v = Except.error BsonError.invalidDocument := by
          rw [putElement, if_pos (by simp [hn])]
        rw [he]
        rfl
      · rcases List.mem_cons.mp hp with h1 | h1
        · rw [h1] at hb
          exact absurd hb hn
        · cases he : putElement co true n v with
          | error e1 =>
              refine ⟨e1, ?_⟩
              rw [putElements, he]
              rfl
          | ok p2 =>
              obtain ⟨e, he2⟩ := ih ⟨p, h1, hb⟩
              refine ⟨e, ?_⟩
              rw [putElements, he, he2]
              rfl

theorem putElements_ck_eq (co : CodecOptions) (d : List (Bytes × Value))
    (hgood : ∀ p ∈ d, badKeyB p.1 = false) :
    putElements co true d = putElements co false d := by
  induction d with
  | nil => rw [putElements, putElements]
  | cons q tl ih =>
      rcases q with ⟨n, v⟩
      have hn : badKeyB n = false := by
        have := hgood (n, v) (List.mem_cons_self _ _)
        simpa using this
      have htl : ∀ p ∈ tl, badKeyB p.1 = false :=
        fun p hp => hgood p (List.mem_cons_of_mem _ hp)
      rw [putElements, putElements, ih htl]
      have hel : putElement co true n v = putElement co false n v := by
        rw [putElement, putElement, hn]
        simp
      rw [hel]

/-- C6: encode with check keys requested rejects any mapping with a
    top-level field name that starts with the dollar byte or contains the dot
    byte, failing with the document-validation error before any bytes are
    produced (the result is an error, not bytes); and for a mapping whose
    top-level names contain neither, requesting check keys changes nothing:
    the encoding equals the one without check keys, so the restriction binds
    at the top level only (nested names are never inspected by the check). -/
theorem C6_check_keys_top_level :
    (∀ (d : Doc) (co : CodecOptions),
      (∃ p ∈ d, badKeyB p.1 = true) →
      dict_to_bson d true co = Except.error BsonError.invalidDocument) ∧
    (∀ (d : Doc) (co : CodecOptions),
      (∀ p ∈ d, badKeyB p.1 = false) →
      dict_to_bson d true co = dict_to_bson d false co) := by
  constructor
  · intro d co hbad
    obtain ⟨e, he⟩ := putElements_badkey co d hbad
    have he2 : e = BsonError.invalidDocument := putElementsErr co true d e he
    unfold dict_to_bson
    rw [he, he2]
    rfl
  · intro d co hgood
    unfold dict_to_bson
    rw [putElements_ck_eq co d hgood]

/-- C6 witness: a document with the single top-level key consisting of the
    dollar byte is rejected under check keys, while a document whose
    top-level key is the letter a (and whose nested sub-document key holds a
    dot byte) encodes identically with and without check keys. -/
theorem C6_witness :
    dict_to_bson [([36], Value.null)] true DEFAULT_CODEC_OPTIONS =
      Except.error BsonError.invalidDocument ∧
    dict_to_bson [([97], Value.doc [([46, 46], Value.null)])] true
        DEFAULT_CODEC_OPTIONS =
      dict_to_bson [([97], Value.doc [([46, 46], Value.null)])] false
        DEFAULT_CODEC_OPTIONS := by
  constructor
  · exact C6_check_keys_top_level.1 _ _
      ⟨([36], Value.null), by simp, by decide⟩
  · refine C6_check_keys_top_level.2 _ _ ?_
    intro p hp
    have hp2 : p = ([97], Value.doc [([46, 46], Value.null)]) := by simpa using hp
    rw [hp2]
    decide


theorem inflate_frame (st : RawBSONDocument) :
    (st.inflate).2.raw = st.raw ∧ (st.inflate).2.codec_options = st.codec_options ∧
    (st.inflate).2.dirty = st.dirty := by
  unfold RawBSONDocument.inflate
  split
  · exact ⟨rfl, rfl, rfl⟩
  · split
    · exact ⟨rfl, rfl, rfl⟩
    · exact ⟨rfl, rfl, rfl⟩

theorem getitem_frame (st : RawBSONDocument) (k : Bytes) :
    (st.getitem k).2.raw = st.raw ∧ (st.getitem k).2.codec_options = st.codec_options ∧
    (st.getitem k).2.dirty = st.dirty := by
  obtain ⟨h1, h2, h3⟩ := inflate_frame st
  unfold RawBSONDocument.getitem
  split
  · rename_i e st1 heq
    rw [heq] at h1 h2 h3
    exact ⟨h1, h2, h3⟩
  · rename_i d st1 heq
    rw [heq] at h1 h2 h3
    split
    · exact ⟨h1, h2, h3⟩
    · exact ⟨h1, h2, h3⟩

theorem lenOp_frame (st : RawBSONDocument) :
    (st.lenOp).2.raw = st.raw ∧ (st.lenOp).2.codec_options = st.codec_options ∧
    (st.lenOp).2.dirty = st.dirty := by
  obtain ⟨h1, h2, h3⟩ := inflate_frame st
  unfold RawBSONDocument.lenOp
  split
  · rename_i e st1 heq
    rw [heq] at h1 h2 h3
    exact ⟨h1, h2, h3⟩
  · rename_i d st1 heq
    rw [heq] at h1 h2 h3
    exact ⟨h1, h2, h3⟩

theorem keysOp_frame (st : RawBSONDocument) :
    (st.keysOp).2.raw = st.raw ∧ (st.keysOp).2.codec_options = st.codec_options ∧
    (st.keysOp).2.dirty = st.dirty := by
  obtain ⟨h1, h2, h3⟩ := inflate_frame st
  unfold RawBSONDocument.keysOp
  split
  · rename_i e st1 heq
    rw [heq] at h1 h2 h3
    exact ⟨h1, h2, h3⟩
  · rename_i d st1 heq
    rw [heq] at h1 h2 h3
    exact ⟨h1, h2, h3⟩

theorem setitem_frame (st : RawBSONDocument) (k : Bytes) (v : Value) :
    (st.setitem k v).2.raw = st.raw ∧
    (st.setitem k v).2.codec_options = st.codec_options := by
  obtain ⟨h1, h2, h3⟩ := inflate_frame st
  unfold RawBSONDocument.setitem
  split
  · rename_i e st1 heq
    rw [heq] at h1 h2 h3
    exact ⟨h1, h2⟩
  · rename_i d st1 heq
    rw [heq] at h1 h2 h3
    exact ⟨h1, h2⟩

theorem delitem_frame (st : RawBSONDocument) (k : Bytes) :
    (st.delitem k).2.raw = st.raw ∧
    (st.delitem k).2.codec_options = st.codec_options := by
  obtain ⟨h1, h2, h3⟩ := inflate_frame st
  unfold RawBSONDocument.delitem
  split
  · rename_i e st1 heq
    rw [heq] at h1 h2 h3
    exact ⟨h1, h2⟩
  · rename_i d st1 heq
    rw [heq] at h1 h2 h3
    split
    · exact ⟨h1, h2⟩
    · exact ⟨h1, h2⟩

theorem rawProp_codec (st : RawBSONDocument) :
    (st.rawProp).2.codec_options = st.codec_options ∧
    (st.rawProp).2.inflated_doc = st.inflated_doc := by
  unfold RawBSONDocument.rawProp
  split
  · split
    · exact ⟨rfl, rfl⟩
    · split
      · exact ⟨rfl, rfl⟩
      · exact ⟨rfl, rfl⟩
  · exact ⟨rfl, rfl⟩

theorem rawProp_clean (st : RawBSONDocument) (h : st.dirty = false) :
    st.rawProp = (Except.ok st.raw, st) := by
  unfold RawBSONDocument.rawProp
  rw [h]
  rfl

theorem anyOp_codec (st : RawBSONDocument) (op : AnyOp) :
    (applyAnyOp st op).codec_options = st.codec_options := by
  cases op with
  | get k => exact (getitem_frame st k).2.1
  | set k v => exact (setitem_frame st k v).2
  | del k => exact (delitem_frame st k).2
  | len => exact (lenOp_frame st).2.1
  | keys => exact (keysOp_frame st).2.1
  | rawBytes => exact (rawProp_codec st).1

/-- C10: at construction, both lazy view classes and the array iterator
    rebuild their codec options from scratch, keeping only the supplied
    timezone-awareness and uuid wire-subtype: the transformer registry is
    discarded (rebuilt empty) and the container class is forced — to the
    plain dict in the mutable view and to the raw view class itself in the
    read-only view and the iterator.  The invariant persists through every
    operation of the mutable view (reads, set, delete, raw), so every
    inflation and re-encode, which by definition run with the stored options,
    uses the rebuilt options. -/
theorem C10_rebuilt_codec_options (B : Bytes) (co : CodecOptions)
    (ops : List AnyOp) :
    (applyAnyOps (RawBSONDocument.init B co) ops).codec_options =
      { tz_aware := co.tz_aware, document_class := DocClassK.dict,
        uuid_representation := co.uuid_representation,
        transformer_registry := [] } ∧
    (ReadOnlyRawBSONDocument.init B co).codec_options =
      { tz_aware := co.tz_aware, document_class := DocClassK.rawBSONDocument,
        uuid_representation := co.uuid_representation,
        transformer_registry := [] } ∧
    (RawBSONIterator.init B co).codec_options =
      { tz_aware := co.tz_aware, document_class := DocClassK.rawBSONDocument,
        uuid_representation := co.uuid_representation,
        transformer_registry := [] } := by
  refine ⟨?_, rfl, rfl⟩
  have key : ∀ (l : List AnyOp) (st : RawBSONDocument),
      (applyAnyOps st l).codec_options = st.codec_options := by
    intro l
    induction l with
    | nil => intro st; rfl
    | cons op tl ih =>
        intro st
        show (applyAnyOps (applyAnyOp st op) tl).codec_options = _
        rw [ih (applyAnyOp st op), anyOp_codec st op]
  rw [key ops (RawBSONDocument.init B co)]
  rfl

/-- C9: the codec options validation checks of BSON.encode and BSON.decode
    construct a TypeError for a non-CodecOptions argument but never raise it
    (the source evaluates the bare constructor expression and discards it),
    so neither entry point can return that TypeError: the call proceeds into
    the codec with the invalid options object and fails there on attribute
    access instead. -/
theorem C9_dead_typeerror_check (document : Doc) (check_keys : Bool)
    (data : Bytes) :
    codecOptionsTypeCheck PyCodecOptions.invalid = some PyError.typeError ∧
    BSONencode document check_keys PyCodecOptions.invalid ≠
      Except.error PyError.typeError ∧
    BSONencode document check_keys PyCodecOptions.invalid =
      Except.error PyError.attributeError ∧
    BSONdecode data PyCodecOptions.invalid ≠ Except.error PyError.typeError ∧
    BSONdecode data PyCodecOptions.invalid =
      Except.error PyError.attributeError := by
  refine ⟨rfl, ?_, rfl, ?_, rfl⟩
  · intro h
    have h2 : (Except.error PyError.attributeError : Except PyError Bytes) =
        Except.error PyError.typeError := h
    injection h2 with h3
    exact absurd h3 (by decide)
  · intro h
    have h2 : (Except.error PyError.attributeError : Except PyError Doc) =
        Except.error PyError.typeError := h
    injection h2 with h3
    exact absurd h3 (by decide)

theorem readOp_clean (st : RawBSONDocument) (op : ReadOp) (h : st.dirty = false) :
    (applyReadOp st op).raw = st.raw ∧ (applyReadOp st op).dirty = false := by
  cases op with
  | get k =>
      obtain ⟨h1, _, h3⟩ := getitem_frame st k
      exact ⟨h1, h3.trans h⟩
  | len =>
      obtain ⟨h1, _, h3⟩ := lenOp_frame st
      exact ⟨h1, h3.trans h⟩
  | keys =>
      obtain ⟨h1, _, h3⟩ := keysOp_frame st
      exact ⟨h1, h3.trans h⟩
  | rawBytes =>
      show (st.rawProp.2).raw = st.raw ∧ (st.rawProp.2).dirty = false
      rw [rawProp_clean st h]
      exact ⟨rfl, h⟩

theorem readOps_clean (ops : List ReadOp) : ∀ st : RawBSONDocument,
    st.dirty = false →
    (applyReadOps st ops).raw = st.raw ∧ (applyReadOps st ops).dirty = false := by
  induction ops with
  | nil => intro st h; exact ⟨rfl, h⟩
  | cons op tl ih =>
      intro st h
      obtain ⟨h1, h2⟩ := readOp_clean st op h
      obtain ⟨h3, h4⟩ := ih (applyReadOp st op) h2
      constructor
      · show (applyReadOps (applyReadOp st op) tl).raw = st.raw
        rw [h3, h1]
      · exact h4

theorem ro_inflate_raw (st : ReadOnlyRawBSONDocument) :
    (st.inflate).2.raw = st.raw := by
  unfold ReadOnlyRawBSONDocument.inflate
  split
  · rfl
  · split
    · rfl
    · rfl

/-- C2: for a mutable Raw Document View constructed from bytes B, any
    sequence of non-mutating operations (field reads, keys, length, raw)
    keeps the stored buffer equal to B and the view clean, and the raw
    property returns exactly B, leaving the state untouched.  The read-only
    view of raw_bson likewise returns its stored buffer verbatim, and its
    inflation (triggered by field reads) never changes the stored buffer. -/
theorem C2_clean_view_raw_verbatim (B : Bytes) (co : CodecOptions)
    (ops : List ReadOp) :
    (applyReadOps (RawBSONDocument.init B co) ops).rawProp.1 = Except.ok B ∧
    (applyReadOps (RawBSONDocument.init B co) ops).rawProp.2.raw = B ∧
    (applyReadOps (RawBSONDocument.init B co) ops).raw = B ∧
    (applyReadOps (RawBSONDocument.init B co) ops).dirty = false ∧
    (ReadOnlyRawBSONDocument.init B co).rawProp = B ∧
    (∀ st : ReadOnlyRawBSONDocument, (st.inflate).2.rawProp = st.rawProp) := by
  obtain ⟨h1, h2⟩ := readOps_clean ops (RawBSONDocument.init B co) rfl
  have hinit : (RawBSONDocument.init B co).raw = B := rfl
  rw [hinit] at h1
  have hrp := rawProp_clean _ h2
  refine ⟨?_, ?_, h1, h2, rfl, fun st => ro_inflate_raw st⟩
  · rw [hrp, h1]
  · rw [hrp, h1]

/-- C7: when a dirty view's raw property fails (the re-encode raises), the
    exception propagates before either assignment, so the object is left
    entirely unchanged: the inflated mapping, the cached raw bytes and the
    dirty flag all keep their values, and in particular the view stays dirty,
    so a later raw read retries the re-encode from the same mapping. -/
theorem C7_failed_reencode_preserves_state (st : RawBSONDocument)
    (e : BsonError) (hdirty : st.dirty = true)
    (hfail : (st.rawProp).1 = Except.error e) :
    (st.rawProp).2 = st ∧ (st.rawProp).2.inflated_doc = st.inflated_doc ∧
    (st.rawProp).2.raw = st.raw ∧ (st.rawProp).2.dirty = true := by
  obtain ⟨raw0, infl0, co0, dirty0⟩ := st
  have hd2 : dirty0 = true := hdirty
  subst hd2
  cases infl0 with
  | none => exact ⟨rfl, rfl, rfl, rfl⟩
  | some d =>
      cases he : dict_to_bson d false co0 with
      | error e2 =>
          have key : (RawBSONDocument.rawProp ⟨raw0, some d, co0, true⟩).2 =
              (⟨raw0, some d, co0, true⟩ : RawBSONDocument) := by
            show (match dict_to_bson d false co0 with
                  | Except.error e3 =>
                      (Except.error e3, (⟨raw0, some d, co0, true⟩ : RawBSONDocument))
                  | Except.ok b =>
                      (Except.ok b, (⟨b, some d, co0, false⟩ : RawBSONDocument))).2 =
              (⟨raw0, some d, co0, true⟩ : RawBSONDocument)
            rw [he]
          exact ⟨key, by rw [key], by rw [key], by rw [key]⟩
      | ok b =>
          exfalso
          have hfail2 : (match dict_to_bson d false co0 with
                | Except.error e3 =>
                    (Except.error e3, (⟨raw0, some d, co0, true⟩ : RawBSONDocument))
                | Except.ok b2 =>
                    (Except.ok b2, (⟨b2, some d, co0, false⟩ : RawBSONDocument))).1 =
              Except.error e := hfail
          rw [he] at hfail2
          exact Except.noConfusion
            (hfail2 : (Except.ok b : Except BsonError Bytes) = Except.error e)

/-- A dirty view whose inflated mapping holds a key containing a NUL byte:
    its re-encode must fail. -/
def C7ex : RawBSONDocument :=
  ⟨[5, 0, 0, 0, 0], some [([0, 97], Value.null)], DEFAULT_CODEC_OPTIONS, true⟩

/-- C7 witness: on the dirty view C7ex the raw property fails with the
    document-validation error and the state survives untouched. -/
theorem C7_witness :
    (C7ex.rawProp).1 = Except.error BsonError.invalidDocument ∧
    (C7ex.rawProp).2 = C7ex := by
  have he : dict_to_bson [([0, 97], Value.null)] false DEFAULT_CODEC_OPTIONS =
      Except.error BsonError.invalidDocument := by
    simp [dict_to_bson, putElements, putElement]
    rfl
  have hfail : (C7ex.rawProp).1 = Except.error BsonError.invalidDocument := by
    show (match dict_to_bson [([0, 97], Value.null)] false DEFAULT_CODEC_OPTIONS with
          | Except.error e => (Except.error e, C7ex)
          | Except.ok b => (Except.ok b, { C7ex with raw := b, dirty := false })).1 =
      Except.error BsonError.invalidDocument
    rw [he]
  exact ⟨hfail,
    (C7_failed_reencode_preserves_state C7ex BsonError.invalidDocument rfl hfail).1⟩

/-- C8: every successful set or delete on the mutable view leaves the stored
    raw buffer and the stored codec options untouched, marks the view dirty,
    and mutates only the inflated mapping, which it forces into existence via
    inflation: afterwards the memoized mapping is exactly the inflated
    mapping of the prior state updated by the one binding (set) or removal
    (delete). -/
theorem C8_set_delete_frame :
    (∀ (st : RawBSONDocument) (k : Bytes) (v : Value) (st1 : RawBSONDocument),
      st.setitem k v = (Except.ok (), st1) →
      st1.raw = st.raw ∧ st1.codec_options = st.codec_options ∧
      st1.dirty = true ∧
      ∃ d stm, st.inflate = (Except.ok d, stm) ∧
        st1.inflated_doc = some (dictSet d k v)) ∧
    (∀ (st : RawBSONDocument) (k : Bytes) (st1 : RawBSONDocument),
      st.delitem k = (Except.ok (), st1) →
      st1.raw = st.raw ∧ st1.codec_options = st.codec_options ∧
      st1.dirty = true ∧
      ∃ d stm, st.inflate = (Except.ok d, stm) ∧
        st1.inflated_doc = some (dictDel d k)) := by
  constructor
  · intro st k v st1 h
    unfold RawBSONDocument.setitem at h
    split at h
    · rename_i e stm heq
      exact Except.noConfusion
        (congrArg Prod.fst h : (Except.error e : Except BsonError Unit) = Except.ok ())
    · rename_i d stm heq
      have h2 : ({ stm with inflated_doc := some (dictSet d k v), dirty := true } :
          RawBSONDocument) = st1 := congrArg Prod.snd h
      have hr2 : stm.raw = st.raw := by
        have hh := (inflate_frame st).1
        rw [heq] at hh
        exact hh
      have hc2 : stm.codec_options = st.codec_options := by
        have hh := (inflate_frame st).2.1
        rw [heq] at hh
        exact hh
      refine ⟨?_, ?_, ?_, d, stm, heq, ?_⟩
      · rw [← h2]; exact hr2
      · rw [← h2]; exact hc2
      · rw [← h2]
      · rw [← h2]
  · intro st k st1 h
    unfold RawBSONDocument.delitem at h
    split at h
    · rename_i e stm heq
      exact Except.noConfusion
        (congrArg Prod.fst h : (Except.error e : Except BsonError Unit) = Except.ok ())
    · rename_i d stm heq
      split at h
      · have h2 : ({ stm with inflated_doc := some (dictDel d k), dirty := true } :
            RawBSONDocument) = st1 := congrArg Prod.snd h
        have hr2 : stm.raw = st.raw := by
          have hh := (inflate_frame st).1
          rw [heq] at hh
          exact hh
        have hc2 : stm.codec_options = st.codec_options := by
          have hh := (inflate_frame st).2.1
          rw [heq] at hh
          exact hh
        refine ⟨?_, ?_, ?_, d, stm, heq, ?_⟩
        · rw [← h2]; exact hr2
        · rw [← h2]; exact hc2
        · rw [← h2]
        · rw [← h2]
      · exact Except.noConfusion
          (congrArg Prod.fst h :
            (Except.error BsonError.keyError : Except BsonError Unit) = Except.ok ())

/-- The 12-byte encoding of the document binding field a to int32 1
    (spec section 8, concrete scenario 1). -/
def C8exB : Bytes := [12, 0, 0, 0, 16, 97, 0, 1, 0, 0, 0, 0]

/-- C8 witness: on a view over C8exB, setting key k to int32 2 succeeds,
    keeps the buffer, marks the view dirty, and stores the updated mapping;
    deleting key a likewise. -/
theorem C8_witness :
    ((RawBSONDocument.init C8exB DEFAULT_CODEC_OPTIONS).setitem [107]
        (Value.int32 2)).2.raw = C8exB ∧
    ((RawBSONDocument.init C8exB DEFAULT_CODEC_OPTIONS).setitem [107]
        (Value.int32 2)).2.dirty = true ∧
    ((RawBSONDocument.init C8exB DEFAULT_CODEC_OPTIONS).setitem [107]
        (Value.int32 2)).2.inflated_doc =
      some [([97], Value.int32 1), ([107], Value.int32 2)] ∧
    ((RawBSONDocument.init C8exB DEFAULT_CODEC_OPTIONS).delitem [97]).2.dirty =
      true := by
  obtain ⟨ha, hb, hc, d, stm, hinf, hd⟩ :=
    C8_set_delete_frame.1 (RawBSONDocument.init C8exB DEFAULT_CODEC_OPTIONS)
      [107] (Value.int32 2)
      ((RawBSONDocument.init C8exB DEFAULT_CODEC_OPTIONS).setitem [107]
        (Value.int32 2)).2 rfl
  obtain ⟨ha2, hb2, hc2, d2, stm2, hinf2, hd2⟩ :=
    C8_set_delete_frame.2 (RawBSONDocument.init C8exB DEFAULT_CODEC_OPTIONS)
      [97] ((RawBSONDocument.init C8exB DEFAULT_CODEC_OPTIONS).delitem [97]).2 rfl
  refine ⟨ha, hc, ?_, hc2⟩
  have hdval : d = [([97], Value.int32 1)] := by
    have := congrArg Prod.fst hinf
    exact Except.ok.inj this.symm
  rw [hd, hdval]
  rfl

theorem ro_inflate_fresh (st : ReadOnlyRawBSONDocument)
    (hst : st.inflated_doc = none) (e : BsonError)
    (hit : rawDocItems st.raw st.codec_options = Except.error e) :
    st.inflate.1 = Except.error e := by
  obtain ⟨raw0, infl0, co0⟩ := st
  have hn : infl0 = none := hst
  subst hn
  show (match rawDocItems raw0 co0 with
        | Except.error e2 =>
            (Except.error e2, (⟨raw0, none, co0⟩ : ReadOnlyRawBSONDocument))
        | Except.ok items =>
            (Except.ok
                (items.foldl (fun acc (p : Bytes × IterVal) => dictSetIV acc p.1 p.2) []),
              (⟨raw0,
                some (items.foldl
                  (fun acc (p : Bytes × IterVal) => dictSetIV acc p.1 p.2) []),
                co0⟩ : ReadOnlyRawBSONDocument))).1 = Except.error e
  rw [hit]

theorem iter_next_fresh (st : RawBSONIterator) (hst : st.iterator = none)
    (e : BsonError) (hit : rawIterItems st.data st.codec_options = Except.error e) :
    (st.next).1 = Except.error e := by
  obtain ⟨data0, co0, it0⟩ := st
  have hn : it0 = none := hst
  subst hn
  show (match rawIterItems data0 co0 with
        | Except.error e2 =>
            (Except.error e2, (⟨data0, co0, some []⟩ : RawBSONIterator))
        | Except.ok [] =>
            (Except.error BsonError.stopIteration,
              (⟨data0, co0, some []⟩ : RawBSONIterator))
        | Except.ok (v :: tl) =>
            (Except.ok v, (⟨data0, co0, some tl⟩ : RawBSONIterator))).1 =
    Except.error e
  rw [hit]

theorem rawDocItems_size_err (B : Bytes) (co2 : CodecOptions)
    (h4 : 4 ≤ B.length) (hbig : (B.length : Int) < toI32 (readU32 B)) :
    rawDocItems B co2 = Except.error BsonError.invalidObjectSize := by
  unfold rawDocItems
  rw [if_neg (by omega), if_pos hbig]

theorem rawIterItems_size_err (B : Bytes) (co2 : CodecOptions)
    (h4 : 4 ≤ B.length) (hbig : (B.length : Int) < toI32 (readU32 B)) :
    rawIterItems B co2 = Except.error BsonError.invalidObjectSize := by
  unfold rawIterItems
  rw [if_neg (by omega), if_pos hbig]

theorem rawDocItems_eoo_err (B : Bytes) (co2 : CodecOptions) (szN : Nat)
    (h4 : 4 ≤ B.length) (hsz : toI32 (readU32 B) = (szN : Int))
    (_h1 : 1 ≤ szN) (h2 : szN ≤ B.length)
    (hbad : (B.drop (szN - 1)).take 1 ≠ [0]) :
    rawDocItems B co2 = Except.error BsonError.badEoo := by
  unfold rawDocItems
  rw [if_neg (by omega), hsz,
    if_neg (show ¬ ((B.length : Int) < (szN : Int)) by omega)]
  rw [if_neg ?hc]
  case hc =>
    rintro ⟨_, hcl⟩
    rw [Int.toNat_natCast] at hcl
    exact hbad hcl

theorem rawIterItems_eoo_err (B : Bytes) (co2 : CodecOptions) (szN : Nat)
    (h4 : 4 ≤ B.length) (hsz : toI32 (readU32 B) = (szN : Int))
    (_h1 : 1 ≤ szN) (h2 : szN ≤ B.length)
    (hbad : (B.drop (szN - 1)).take 1 ≠ [0]) :
    rawIterItems B co2 = Except.error BsonError.badEoo := by
  unfold rawIterItems
  rw [if_neg (by omega), hsz,
    if_neg (show ¬ ((B.length : Int) < (szN : Int)) by omega)]
  rw [if_neg ?hc]
  case hc =>
    rintro ⟨_, hcl⟩
    rw [Int.toNat_natCast] at hcl
    exact hbad hcl

/-- C3: on a buffer whose declared size (signed little-endian int32 of the
    first four bytes) exceeds the buffer length, triggering lazy decoding —
    inflating the read-only view, or the first next call of the array
    iterator — fails with the invalid-object-size error; on a buffer whose
    byte at declaredSize - 1 is not NUL, it fails with the bad-eoo error.  In
    both cases construction itself succeeds without validating: the view and
    the iterator constructors merely store the buffer, the rebuilt options,
    and no memoized state. -/
theorem C3_lazy_malformed_errors (B : Bytes) (co : CodecOptions)
    (h4 : 4 ≤ B.length) :
    ((B.length : Int) < toI32 (readU32 B) →
      ((ReadOnlyRawBSONDocument.init B co).inflate.1 =
          Except.error BsonError.invalidObjectSize ∧
        ((RawBSONIterator.init B co).next).1 =
          Except.error BsonError.invalidObjectSize)) ∧
    (∀ szN : Nat, toI32 (readU32 B) = (szN : Int) → 1 ≤ szN → szN ≤ B.length →
      (B.drop (szN - 1)).take 1 ≠ [0] →
      ((ReadOnlyRawBSONDocument.init B co).inflate.1 =
          Except.error BsonError.badEoo ∧
        ((RawBSONIterator.init B co).next).1 = Except.error BsonError.badEoo)) ∧
    ((ReadOnlyRawBSONDocument.init B co).raw = B ∧
      (ReadOnlyRawBSONDocument.init B co).inflated_doc = none ∧
      (RawBSONIterator.init B co).data = B ∧
      (RawBSONIterator.init B co).iterator = none) := by
  refine ⟨fun hbig => ⟨?_, ?_⟩, fun szN hsz h1 h2 hbad => ⟨?_, ?_⟩,
    rfl, rfl, rfl, rfl⟩
  · exact ro_inflate_fresh _ rfl _ (rawDocItems_size_err B _ h4 hbig)
  · exact iter_next_fresh _ rfl _ (rawIterItems_size_err B _ h4 hbig)
  · exact ro_inflate_fresh _ rfl _
      (rawDocItems_eoo_err B _ szN h4 hsz h1 h2 hbad)
  · exact iter_next_fresh _ rfl _
      (rawIterItems_eoo_err B _ szN h4 hsz h1 h2 hbad)

/-- C3 witness: the 5-byte buffer declaring size 20 fails with the
    invalid-object-size error on both lazy paths, and the 5-byte buffer
    declaring size 5 with a non-NUL final byte fails with the bad-eoo error;
    construction succeeds on both. -/
theorem C3_witness :
    ((ReadOnlyRawBSONDocument.init [20, 0, 0, 0, 0]
        DEFAULT_CODEC_OPTIONS).inflate.1 =
      Except.error BsonError.invalidObjectSize) ∧
    (((RawBSONIterator.init [20, 0, 0, 0, 0] DEFAULT_CODEC_OPTIONS).next).1 =
      Except.error BsonError.invalidObjectSize) ∧
    ((ReadOnlyRawBSONDocument.init [5, 0, 0, 0, 7]
        DEFAULT_CODEC_OPTIONS).inflate.1 = Except.error BsonError.badEoo) ∧
    (((RawBSONIterator.init [5, 0, 0, 0, 7] DEFAULT_CODEC_OPTIONS).next).1 =
      Except.error BsonError.badEoo) ∧
    (ReadOnlyRawBSONDocument.init [20, 0, 0, 0, 0]
        DEFAULT_CODEC_OPTIONS).raw = [20, 0, 0, 0, 0] ∧
    (RawBSONIterator.init [20, 0, 0, 0, 0] DEFAULT_CODEC_OPTIONS).iterator =
      none := by
  obtain ⟨hbig, _, hcons⟩ :=
    C3_lazy_malformed_errors [20, 0, 0, 0, 0] DEFAULT_CODEC_OPTIONS (by decide)
  obtain ⟨hb1, hb2⟩ := hbig (by decide)
  obtain ⟨_, heoo, _⟩ :=
    C3_lazy_malformed_errors [5, 0, 0, 0, 7] DEFAULT_CODEC_OPTIONS (by decide)
  obtain ⟨he1, he2⟩ := heoo 5 (by decide) (by decide) (by decide) (by decide)
  exact ⟨hb1, hb2, he1, he2, hcons.1, hcons.2.2.2⟩

/-- A raw array buffer holding exactly two embedded sub-documents at indexes
    0 and 1 (type tag 3, index names the digit bytes 48 and 49), framed with
    its total size and terminating NUL. -/
def mkTwoDocArray (b1 b2 : Bytes) : Bytes :=
  encU32LE (b1.length + b2.length + 11) ++
    ([3, 48, 0] ++ (b1 ++ ([3, 49, 0] ++ (b2 ++ [0]))))

theorem readU32_append (b : Bytes) (r : Bytes) (h : 4 ≤ b.length) :
    readU32 (b ++ r) = readU32 b := by
  rcases b with _ | ⟨x1, b⟩
  · simp at h
  rcases b with _ | ⟨x2, b⟩
  · simp at h
  rcases b with _ | ⟨x3, b⟩
  · simp at h
  rcases b with _ | ⟨x4, b⟩
  · simp at h
  rfl

theorem rawIterLoop_succ (data : Bytes) (co : CodecOptions)
    (listEnd fuel pos : Nat) :
    rawIterLoop data co listEnd (fuel + 1) pos =
      if pos < listEnd then
        match findNulFrom data pos with
        | none => Except.error BsonError.valueError
        | some p1 =>
            match getValueLazy data (p1 + 1) listEnd ((data.drop pos).headI) co with
            | Except.error e => Except.error e
            | Except.ok (v, p2) =>
                match rawIterLoop data co listEnd fuel p2 with
                | Except.error e => Except.error e
                | Except.ok tl => Except.ok (v :: tl)
      else Except.ok [] := rfl

theorem rawIterLoop_stop (data : Bytes) (co : CodecOptions)
    (listEnd fuel pos : Nat) (hpos : ¬ pos < listEnd) :
    rawIterLoop data co listEnd (fuel + 1) pos = Except.ok [] := by
  rw [rawIterLoop_succ, if_neg hpos]

theorem findNul_tag (A : Bytes) (pos : Nat) (k : Nat) (rest : Bytes)
    (hdrop : A.drop pos = [3, k, 0] ++ rest) (hk : k ≠ 0) :
    findNulFrom A pos = some (pos + 2) := by
  unfold findNulFrom
  rw [hdrop]
  simp [List.findIdx?, hk]

theorem getValueLazy_doc (A : Bytes) (co2 : CodecOptions)
    (listEnd pos : Nat) (bsub rest : Bytes)
    (hd3 : A.drop (pos + 2 + 1) = bsub ++ rest)
    (hsz : readU32 bsub = bsub.length) (h5 : 5 ≤ bsub.length)
    (hszb : bsub.length ≤ 2147483647)
    (hA : pos + 2 + 1 + 4 ≤ A.length)
    (hmax : pos + 3 + bsub.length ≤ listEnd) :
    getValueLazy A (pos + 2 + 1) listEnd 3 co2 =
      Except.ok (IterVal.rawDoc bsub co2, pos + 2 + 1 + bsub.length) := by
  unfold getValueLazy
  rw [if_pos (Or.inl rfl)]
  rw [if_neg (show ¬ (A.length < pos + 2 + 1 + 4) by omega)]
  rw [hd3]
  rw [readU32_append bsub rest (by omega)]
  rw [hsz]
  have ht32 : toI32 bsub.length = (bsub.length : Int) := by
    unfold toI32
    rw [if_pos (by omega)]
  rw [ht32]
  rw [if_neg (show ¬ ((bsub.length : Int) < 5) by
    have : (5 : Int) ≤ (bsub.length : Int) := by exact_mod_cast h5
    omega)]
  rw [Int.toNat_natCast]
  rw [if_neg (show ¬ (listEnd < pos + 2 + 1 + bsub.length) by omega)]
  rw [if_pos rfl]
  rw [List.take_left]

theorem rawIterLoop_step (A : Bytes) (co2 : CodecOptions)
    (listEnd fuel pos : Nat) (bsub : Bytes) (k : Nat) (rest : Bytes)
    (hdrop : A.drop pos = [3, k, 0] ++ (bsub ++ rest)) (hk : k ≠ 0)
    (hsz : readU32 bsub = bsub.length) (h5 : 5 ≤ bsub.length)
    (hszb : bsub.length ≤ 2147483647)
    (hpos : pos < listEnd)
    (hmax : pos + 3 + bsub.length ≤ listEnd)
    (hAlen : pos + 2 + 1 + 4 ≤ A.length) :
    rawIterLoop A co2 listEnd (fuel + 1) pos =
      match rawIterLoop A co2 listEnd fuel (pos + 3 + bsub.length) with
      | Except.error e => Except.error e
      | Except.ok tl => Except.ok (IterVal.rawDoc bsub co2 :: tl) := by
  rw [rawIterLoop_succ, if_pos hpos]
  rw [findNul_tag A pos k (bsub ++ rest) hdrop hk]
  have htag : (A.drop pos).headI = 3 := by rw [hdrop]; rfl
  rw [htag]
  have hd3 : A.drop (pos + 2 + 1) = bsub ++ rest := by
    have e1 : (A.drop pos).drop 3 = A.drop (pos + 3) := List.drop_drop 3 pos A
    have e2 : A.drop (pos + 2 + 1) = (A.drop pos).drop 3 := e1.symm
    rw [e2, hdrop]
    exact List.drop_left' (show ([3, k, 0] : Bytes).length = 3 from rfl)
  show (match getValueLazy A (pos + 2 + 1) listEnd 3 co2 with
        | Except.error e => Except.error e
        | Except.ok (v, p2) =>
            match rawIterLoop A co2 listEnd fuel p2 with
            | Except.error e => Except.error e
            | Except.ok tl => Except.ok (v :: tl)) =
      match rawIterLoop A co2 listEnd fuel (pos + 3 + bsub.length) with
      | Except.error e => Except.error e
      | Except.ok tl => Except.ok (IterVal.rawDoc bsub co2 :: tl)
  rw [getValueLazy_doc A co2 listEnd pos bsub rest hd3 hsz h5 hszb hAlen hmax]

/-- The options rebuild performed by the raw_bson constructors. -/
def rawOptions (co : CodecOptions) : CodecOptions :=
  { tz_aware := co.tz_aware, document_class := DocClassK.rawBSONDocument,
    uuid_representation := co.uuid_representation, transformer_registry := [] }

theorem rawIterItems_two (b1 b2 : Bytes) (co2 : CodecOptions)
    (h1 : 5 ≤ b1.length) (h2 : 5 ≤ b2.length)
    (hs1 : readU32 b1 = b1.length) (hs2 : readU32 b2 = b2.length)
    (hbound : b1.length + b2.length + 11 ≤ 2147483647) :
    rawIterItems (mkTwoDocArray b1 b2) co2 =
      Except.ok [IterVal.rawDoc b1 co2, IterVal.rawDoc b2 co2] := by
  obtain ⟨A, hA⟩ : ∃ A, A = mkTwoDocArray b1 b2 := ⟨_, rfl⟩
  rw [← hA]
  have hlen : A.length = b1.length + b2.length + 11 := by
    rw [hA]
    simp [mkTwoDocArray, encU32LE]
    omega
  have hr : readU32 A = b1.length + b2.length + 11 := by
    rw [hA]
    unfold mkTwoDocArray
    rw [readU32_encU32]
    omega
  have ht : toI32 (readU32 A) = ((b1.length + b2.length + 11 : Nat) : Int) := by
    rw [hr]
    unfold toI32
    rw [if_pos (by omega)]
  have hdrop4 : A.drop 4 = [3, 48, 0] ++ (b1 ++ ([3, 49, 0] ++ (b2 ++ [0]))) := by
    rw [hA]
    unfold mkTwoDocArray
    exact List.drop_left'
      (show (encU32LE (b1.length + b2.length + 11)).length = 4 from rfl)
  have hdropP2 : A.drop (4 + 3 + b1.length) = [3, 49, 0] ++ (b2 ++ [0]) := by
    have e1 : (A.drop 4).drop (3 + b1.length) = A.drop (4 + 3 + b1.length) := by
      rw [List.drop_drop]
      congr 1
      omega
    rw [← e1, hdrop4]
    have e2 : ([3, 48, 0] : Bytes) ++ (b1 ++ ([3, 49, 0] ++ (b2 ++ [0]))) =
        (([3, 48, 0] ++ b1) ++ ([3, 49, 0] ++ (b2 ++ [0]))) := by
      simp [List.append_assoc]
    rw [e2]
    exact List.drop_left' (by simp; omega)
  unfold rawIterItems
  rw [if_neg (show ¬ A.length < 4 by omega), ht]
  rw [if_neg (show ¬ ((A.length : Int) <
      ((b1.length + b2.length + 11 : Nat) : Int)) by
    push_cast
    omega)]
  have heoo : (A.drop
      (((b1.length + b2.length + 11 : Nat) : Int).toNat - 1)).take 1 = [0] := by
    rw [Int.toNat_natCast]
    have hfr : A = (encU32LE (b1.length + b2.length + 11) ++
        ([3, 48, 0] ++ (b1 ++ ([3, 49, 0] ++ b2)))) ++ [0] := by
      rw [hA]
      simp [mkTwoDocArray, List.append_assoc]
    rw [hfr, List.drop_left' (show (encU32LE (b1.length + b2.length + 11) ++
        ([3, 48, 0] ++ (b1 ++ ([3, 49, 0] ++ b2)))).length =
        b1.length + b2.length + 11 - 1 by simp [encU32LE]; omega)]
    rfl
  rw [if_pos ⟨by push_cast; omega, heoo⟩, Int.toNat_natCast]
  obtain ⟨m, hm⟩ : ∃ m, A.length = m + 1 + 1 + 1 :=
    ⟨b1.length + b2.length + 8, by omega⟩
  rw [hm]
  rw [rawIterLoop_step A co2 (b1.length + b2.length + 11 - 1) (m + 1 + 1) 4 b1
    48 ([3, 49, 0] ++ (b2 ++ [0])) hdrop4 (by decide) hs1 h1 (by omega)
    (by omega) (by omega) (by omega)]
  rw [rawIterLoop_step A co2 (b1.length + b2.length + 11 - 1) (m + 1)
    (4 + 3 + b1.length) b2 49 [0] hdropP2 (by decide) hs2 h2 (by omega)
    (by omega) (by omega) (by omega)]
  rw [rawIterLoop_stop A co2 (b1.length + b2.length + 11 - 1) m
    (4 + 3 + b1.length + 3 + b2.length) (by omega)]

theorem iter_next_fresh_ok (st : RawBSONIterator) (hst : st.iterator = none)
    (v : IterVal) (tl : List IterVal)
    (hit : rawIterItems st.data st.codec_options = Except.ok (v :: tl)) :
    st.next = (Except.ok v, { st with iterator := some tl }) := by
  obtain ⟨data0, co0, it0⟩ := st
  have hn : it0 = none := hst
  subst hn
  show (match rawIterItems data0 co0 with
        | Except.error e =>
            (Except.error e, (⟨data0, co0, some []⟩ : RawBSONIterator))
        | Except.ok [] =>
            (Except.error BsonError.stopIteration,
              (⟨data0, co0, some []⟩ : RawBSONIterator))
        | Except.ok (v2 :: tl2) =>
            (Except.ok v2, (⟨data0, co0, some tl2⟩ : RawBSONIterator))) =
    (Except.ok v, (⟨data0, co0, some tl⟩ : RawBSONIterator))
  rw [hit]

theorem iter_next_cons (st : RawBSONIterator) (v : IterVal) (tl : List IterVal)
    (hst : st.iterator = some (v :: tl)) :
    st.next = (Except.ok v, { st with iterator := some tl }) := by
  obtain ⟨data0, co0, it0⟩ := st
  have hn : it0 = some (v :: tl) := hst
  subst hn
  rfl

theorem iter_next_exhausted (st : RawBSONIterator) (hst : st.iterator = some []) :
    st.next =
      (Except.error BsonError.stopIteration, { st with iterator := some [] }) := by
  obtain ⟨data0, co0, it0⟩ := st
  have hn : it0 = some [] := hst
  subst hn
  rfl

/-- C4: over an array buffer framing exactly two embedded sub-documents
    (each declaring its own byte length in its first four bytes), the first
    next call of a fresh iterator yields the Raw Document View over the first
    sub-document slice (with the iterator's rebuilt options), the second
    yields the view over the second slice, the third fails with the
    end-of-sequence error, and the exhausted state is a fixpoint of next, so
    every subsequent call fails the same way — the iterator is not
    restartable. -/
theorem C4_iterator_two_subdocs (b1 b2 : Bytes) (co : CodecOptions)
    (h1 : 5 ≤ b1.length) (h2 : 5 ≤ b2.length)
    (hs1 : readU32 b1 = b1.length) (hs2 : readU32 b2 = b2.length)
    (hbound : b1.length + b2.length + 11 ≤ 2147483647) :
    (RawBSONIterator.init (mkTwoDocArray b1 b2) co).next =
      (Except.ok (IterVal.rawDoc b1 (rawOptions co)),
        ⟨mkTwoDocArray b1 b2, rawOptions co,
          some [IterVal.rawDoc b2 (rawOptions co)]⟩) ∧
    (⟨mkTwoDocArray b1 b2, rawOptions co,
        some [IterVal.rawDoc b2 (rawOptions co)]⟩ : RawBSONIterator).next =
      (Except.ok (IterVal.rawDoc b2 (rawOptions co)),
        ⟨mkTwoDocArray b1 b2, rawOptions co, some []⟩) ∧
    (⟨mkTwoDocArray b1 b2, rawOptions co, some []⟩ : RawBSONIterator).next =
      (Except.error BsonError.stopIteration,
        ⟨mkTwoDocArray b1 b2, rawOptions co, some []⟩) := by
  refine ⟨?_, ?_, ?_⟩
  · exact iter_next_fresh_ok _ rfl _ _
      (rawIterItems_two b1 b2 (rawOptions co) h1 h2 hs1 hs2 hbound)
  · exact iter_next_cons _ _ _ rfl
  · exact iter_next_exhausted _ rfl

/-- The first embedded sub-document of the iterator scenario: the 22-byte
    encoding of the document binding hello to the string world. -/
def C4b1 : Bytes :=
  [22, 0, 0, 0, 2, 104, 101, 108, 108, 111, 0, 6, 0, 0, 0,
   119, 111, 114, 108, 100, 0, 0]

/-- The second embedded sub-document: hello bound to the string again. -/
def C4b2 : Bytes :=
  [22, 0, 0, 0, 2, 104, 101, 108, 108, 111, 0, 6, 0, 0, 0,
   97, 103, 97, 105, 110, 0, 0]

/-- C4 witness: over the concrete two-element array buffer of the tests, the
    iterator yields the two sub-document views in order, then raises
    end-of-sequence, and the exhausted state is a next fixpoint. -/
theorem C4_witness :
    (RawBSONIterator.init (mkTwoDocArray C4b1 C4b2) DEFAULT_CODEC_OPTIONS).next =
      (Except.ok (IterVal.rawDoc C4b1 (rawOptions DEFAULT_CODEC_OPTIONS)),
        ⟨mkTwoDocArray C4b1 C4b2, rawOptions DEFAULT_CODEC_OPTIONS,
          some [IterVal.rawDoc C4b2 (rawOptions DEFAULT_CODEC_OPTIONS)]⟩) ∧
    (⟨mkTwoDocArray C4b1 C4b2, rawOptions DEFAULT_CODEC_OPTIONS,
        some [IterVal.rawDoc C4b2 (rawOptions DEFAULT_CODEC_OPTIONS)]⟩ :
        RawBSONIterator).next =
      (Except.ok (IterVal.rawDoc C4b2 (rawOptions DEFAULT_CODEC_OPTIONS)),
        ⟨mkTwoDocArray C4b1 C4b2, rawOptions DEFAULT_CODEC_OPTIONS, some []⟩) ∧
    (⟨mkTwoDocArray C4b1 C4b2, rawOptions DEFAULT_CODEC_OPTIONS,
        some []⟩ : RawBSONIterator).next =
      (Except.error BsonError.stopIteration,
        ⟨mkTwoDocArray C4b1 C4b2, rawOptions DEFAULT_CODEC_OPTIONS, some []⟩) := by
  exact C4_iterator_two_subdocs C4b1 C4b2 DEFAULT_CODEC_OPTIONS (by decide)
    (by decide) (by decide) (by decide) (by decide)

mutual

/-- Fuel needed by the decoder for one value payload. -/
def valNeed : Value → Nat
  | .doc d => 2 + elemsNeed d
  | .arr l => 2 + arrNeedL l
  | .codeWScope _ scope => 2 + elemsNeed scope
  | _ => 1

/-- Fuel needed by the decoder for an element region. -/
def elemsNeed : List (Bytes × Value) → Nat
  | [] => 1
  | (_, v) :: tl => 1 + valNeed v + elemsNeed tl

/-- Fuel needed by the decoder for an array body region. -/
def arrNeedL : List Value → Nat
  | [] => 1
  | v :: tl => 1 + valNeed v + arrNeedL tl

end

theorem one_le_valNeed (v : Value) : 1 ≤ valNeed v := by
  cases v <;> simp [valNeed] <;> omega

theorem one_le_elemsNeed (d : List (Bytes × Value)) : 1 ≤ elemsNeed d := by
  cases d with
  | nil => simp [elemsNeed]
  | cons p tl =>
      rcases p with ⟨n, v⟩
      simp [elemsNeed]
      omega

theorem one_le_arrNeedL (l : List Value) : 1 ≤ arrNeedL l := by
  cases l <;> (simp [arrNeedL]; try omega)

theorem natDecimal_ne_nil (i : Nat) : natDecimal i ≠ [] := by
  unfold natDecimal natDecimalAux
  split <;> simp

mutual

/-- The decoder fuel need of a value is dominated by its payload size. -/
def valNeed_le : (v : Value) → valNeed v ≤ 1 + payloadSize v
  | .double p => by simp [valNeed, payloadSize]
  | .string s => by simp [valNeed, payloadSize]
  | .doc d => by
      have h := elemsNeed_le d
      simp only [valNeed, payloadSize]
      omega
  | .arr l => by
      have h := arrNeedL_le 0 l
      simp only [valNeed, payloadSize]
      omega
  | .binary st b => by simp [valNeed, payloadSize]
  | .undefined => by simp [valNeed, payloadSize]
  | .regex p f => by simp [valNeed, payloadSize]
  | .dbPointer ns oid => by simp [valNeed, payloadSize]
  | .code s => by simp [valNeed, payloadSize]
  | .symbol s => by simp [valNeed, payloadSize]
  | .codeWScope s scope => by
      have h := elemsNeed_le scope
      simp only [valNeed, payloadSize]
      omega
  | .objectId b => by simp [valNeed, payloadSize]
  | .bool t => by simp [valNeed, payloadSize]
  | .datetime ms => by simp [valNeed, payloadSize]
  | .null => by simp [valNeed, payloadSize]
  | .int32 i => by simp [valNeed, payloadSize]
  | .timestamp t => by simp [valNeed, payloadSize]
  | .int64 i => by simp [valNeed, payloadSize]
  | .decimal128 p => by simp [valNeed, payloadSize]
  | .minKey => by simp [valNeed, payloadSize]
  | .maxKey => by simp [valNeed, payloadSize]

/-- The decoder fuel need of an element region is dominated by its size. -/
def elemsNeed_le : (d : List (Bytes × Value)) → elemsNeed d ≤ 1 + elemsSize d
  | [] => by simp [elemsNeed, elemsSize]
  | (n, v) :: tl => by
      have h1 := valNeed_le v
      have h2 := elemsNeed_le tl
      simp only [elemsNeed, elemsSize]
      omega

/-- The decoder fuel need of an array body is dominated by its size. -/
def arrNeedL_le : (i : Nat) → (l : List Value) → arrNeedL l ≤ 1 + arrElemsSize i l
  | _, [] => by simp [arrNeedL, arrElemsSize]
  | i, v :: tl => by
      have h1 := valNeed_le v
      have h2 := arrNeedL_le (i + 1) tl
      have h3 : 1 ≤ (natDecimal i).length :=
        List.length_pos.mpr (natDecimal_ne_nil i)
      simp only [arrNeedL, arrElemsSize]
      omega

end

theorem putElements_length (co : CodecOptions) (d : List (Bytes × Value))
    (body : Bytes) (hwf : fieldsWF d = true)
    (h : putElements co false d = Except.ok body) : body.length = elemsSize d := by
  obtain ⟨b2, hb2, hlen⟩ := putElementsLen co d hwf
  rw [h] at hb2
  rw [Except.ok.inj hb2]
  exact hlen

theorem putArrElems_length (co : CodecOptions) (i : Nat) (l : List Value)
    (body : Bytes) (hwf : valuesWF l = true)
    (h : putArrElems co i l = Except.ok body) : body.length = arrElemsSize i l := by
  obtain ⟨b2, hb2, hlen⟩ := putArrLen co i l hwf
  rw [h] at hb2
  rw [Except.ok.inj hb2]
  exact hlen

theorem dict_to_bson_shape (co : CodecOptions) (d : Doc) (b : Bytes)
    (h : dict_to_bson d false co = Except.ok b) :
    ∃ body, putElements co false d = Except.ok body ∧
      b = encU32LE (body.length + 5) ++ (body ++ [0]) := by
  unfold dict_to_bson at h
  cases hb : putElements co false d with
  | error e =>
      rw [hb] at h
      exact absurd
        (h : (Except.error e : Except BsonError Bytes) = Except.ok b)
        (fun hh => Except.noConfusion hh)
  | ok body =>
      rw [hb] at h
      have h2 : (Except.ok (encU32LE (body.length + 5) ++ (body ++ [0])) :
          Except BsonError Bytes) = Except.ok b := h
      exact ⟨body, rfl, (Except.ok.inj h2).symm⟩

theorem decoders_succ (co : CodecOptions) (fuel : Nat) :
    decoders co (fuel + 1) = decStep co (decoders co fuel) := rfl

theorem decStep_val_1 (co : CodecOptions) (prev : DecFuns) (b : Bytes) :
    (decStep co prev).val 1 b =
      if b.length < 8 then Except.error BsonError.invalidBSON
      else Except.ok (Value.double (b.take 8), b.drop 8) := rfl

theorem decStep_val_2 (co : CodecOptions) (prev : DecFuns) (b : Bytes) :
    (decStep co prev).val 2 b =
      if b.length < 4 then Except.error BsonError.invalidBSON
      else if toI32 (readU32 b) < 1 then Except.error BsonError.invalidBSON
      else if b.length < 4 + (toI32 (readU32 b)).toNat then
        Except.error BsonError.invalidBSON
      else if (b.drop (4 + (toI32 (readU32 b)).toNat - 1)).take 1 ≠ [0] then
        Except.error BsonError.invalidBSON
      else Except.ok (Value.string ((b.drop 4).take ((toI32 (readU32 b)).toNat - 1)),
        b.drop (4 + (toI32 (readU32 b)).toNat)) := rfl

theorem decStep_val_3 (co : CodecOptions) (prev : DecFuns) (b : Bytes) :
    (decStep co prev).val 3 b =
      match prev.docF b with
      | Except.error e => Except.error e
      | Except.ok (d, rest) => Except.ok (Value.doc d, rest) := rfl

theorem decStep_val_4 (co : CodecOptions) (prev : DecFuns) (b : Bytes) :
    (decStep co prev).val 4 b =
      match prev.arrF b with
      | Except.error e => Except.error e
      | Except.ok (l, rest) => Except.ok (Value.arr l, rest) := rfl

theorem decStep_val_5 (co : CodecOptions) (prev : DecFuns) (b : Bytes) :
    (decStep co prev).val 5 b =
      if b.length < 4 then Except.error BsonError.invalidBSON
      else if toI32 (readU32 b) < 0 then Except.error BsonError.invalidBSON
      else if b.length < 4 + 1 + (toI32 (readU32 b)).toNat then
        Except.error BsonError.invalidBSON
      else Except.ok (Value.binary ((b.drop 4).headI)
          ((b.drop 5).take ((toI32 (readU32 b)).toNat)),
        b.drop (5 + (toI32 (readU32 b)).toNat)) := rfl

theorem decStep_val_6 (co : CodecOptions) (prev : DecFuns) (b : Bytes) :
    (decStep co prev).val 6 b = Except.ok (Value.undefined, b) := rfl

theorem decStep_val_7 (co : CodecOptions) (prev : DecFuns) (b : Bytes) :
    (decStep co prev).val 7 b =
      if b.length < 12 then Except.error BsonError.invalidBSON
      else Except.ok (Value.objectId (b.take 12), b.drop 12) := rfl

theorem decStep_val_11 (co : CodecOptions) (prev : DecFuns) (b : Bytes) :
    (decStep co prev).val 11 b =
      match takeCString b with
      | none => Except.error BsonError.invalidBSON
      | some (p, r1) =>
          match takeCString r1 with
          | none => Except.error BsonError.invalidBSON
          | some (f, r2) => Except.ok (Value.regex p f, r2) := rfl

theorem decStep_val_12 (co : CodecOptions) (prev : DecFuns) (b : Bytes) :
    (decStep co prev).val 12 b =
      if b.length < 4 then Except.error BsonError.invalidBSON
      else if toI32 (readU32 b) < 1 then Except.error BsonError.invalidBSON
      else if b.length < 4 + (toI32 (readU32 b)).toNat + 12 then
        Except.error BsonError.invalidBSON
      else if (b.drop (4 + (toI32 (readU32 b)).toNat - 1)).take 1 ≠ [0] then
        Except.error BsonError.invalidBSON
      else Except.ok (Value.dbPointer
          ((b.drop 4).take ((toI32 (readU32 b)).toNat - 1))
          ((b.drop (4 + (toI32 (readU32 b)).toNat)).take 12),
        b.drop (4 + (toI32 (readU32 b)).toNat + 12)) := rfl

theorem decStep_val_13 (co : CodecOptions) (prev : DecFuns) (b : Bytes) :
    (decStep co prev).val 13 b =
      if b.length < 4 then Except.error BsonError.invalidBSON
      else if toI32 (readU32 b) < 1 then Except.error BsonError.invalidBSON
      else if b.length < 4 + (toI32 (readU32 b)).toNat then
        Except.error BsonError.invalidBSON
      else if (b.drop (4 + (toI32 (readU32 b)).toNat - 1)).take 1 ≠ [0] then
        Except.error BsonError.invalidBSON
      else Except.ok (Value.code ((b.drop 4).take ((toI32 (readU32 b)).toNat - 1)),
        b.drop (4 + (toI32 (readU32 b)).toNat)) := rfl

theorem decStep_val_14 (co : CodecOptions) (prev : DecFuns) (b : Bytes) :
    (decStep co prev).val 14 b =
      if b.length < 4 then Except.error BsonError.invalidBSON
      else if toI32 (readU32 b) < 1 then Except.error BsonError.invalidBSON
      else if b.length < 4 + (toI32 (readU32 b)).toNat then
        Except.error BsonError.invalidBSON
      else if (b.drop (4 + (toI32 (readU32 b)).toNat - 1)).take 1 ≠ [0] then
        Except.error BsonError.invalidBSON
      else Except.ok (Value.symbol ((b.drop 4).take ((toI32 (readU32 b)).toNat - 1)),
        b.drop (4 + (toI32 (readU32 b)).toNat)) := rfl

theorem decStep_val_15 (co : CodecOptions) (prev : DecFuns) (b : Bytes) :
    (decStep co prev).val 15 b =
      if b.length < 4 then Except.error BsonError.invalidBSON
      else if (b.length : Int) < toI32 (readU32 b) then
        Except.error BsonError.invalidBSON
      else if (b.drop 4).length < 4 then Except.error BsonError.invalidBSON
      else if toI32 (readU32 (b.drop 4)) < 1 then
        Except.error BsonError.invalidBSON
      else if (b.drop 4).length < 4 + (toI32 (readU32 (b.drop 4))).toNat then
        Except.error BsonError.invalidBSON
      else if ((b.drop 4).drop (4 + (toI32 (readU32 (b.drop 4))).toNat - 1)).take 1
          ≠ [0] then
        Except.error BsonError.invalidBSON
      else
        match prev.docF ((b.drop 4).drop (4 + (toI32 (readU32 (b.drop 4))).toNat)) with
        | Except.error e => Except.error e
        | Except.ok (d, rest) =>
            Except.ok (Value.codeWScope
              (((b.drop 4).drop 4).take ((toI32 (readU32 (b.drop 4))).toNat - 1)) d,
              rest) := rfl

theorem decStep_val_8 (co : CodecOptions) (prev : DecFuns) (b : Bytes) :
    (decStep co prev).val 8 b =
      match b with
      | 0 :: r => Except.ok (Value.bool false, r)
      | 1 :: r => Except.ok (Value.bool true, r)
      | _ => Except.error BsonError.invalidBSON := rfl

theorem decStep_val_9 (co : CodecOptions) (prev : DecFuns) (b : Bytes) :
    (decStep co prev).val 9 b =
      if b.length < 8 then Except.error BsonError.invalidBSON
      else Except.ok (Value.datetime (toI64 (readU64 b)), b.drop 8) := rfl

theorem decStep_val_10 (co : CodecOptions) (prev : DecFuns) (b : Bytes) :
    (decStep co prev).val 10 b = Except.ok (Value.null, b) := rfl

theorem decStep_val_16 (co : CodecOptions) (prev : DecFuns) (b : Bytes) :
    (decStep co prev).val 16 b =
      if b.length < 4 then Except.error BsonError.invalidBSON
      else Except.ok (Value.int32 (toI32 (readU32 b)), b.drop 4) := rfl

theorem decStep_val_17 (co : CodecOptions) (prev : DecFuns) (b : Bytes) :
    (decStep co prev).val 17 b =
      if b.length < 8 then Except.error BsonError.invalidBSON
      else Except.ok (Value.timestamp (readU64 b), b.drop 8) := rfl

theorem decStep_val_18 (co : CodecOptions) (prev : DecFuns) (b : Bytes) :
    (decStep co prev).val 18 b =
      if b.length < 8 then Except.error BsonError.invalidBSON
      else Except.ok (Value.int64 (toI64 (readU64 b)), b.drop 8) := rfl

theorem decStep_val_19 (co : CodecOptions) (prev : DecFuns) (b : Bytes) :
    (decStep co prev).val 19 b =
      if b.length < 16 then Except.error BsonError.invalidBSON
      else Except.ok (Value.decimal128 (b.take 16), b.drop 16) := rfl

theorem decStep_val_127 (co : CodecOptions) (prev : DecFuns) (b : Bytes) :
    (decStep co prev).val 127 b = Except.ok (Value.maxKey, b) := rfl

theorem decStep_val_255 (co : CodecOptions) (prev : DecFuns) (b : Bytes) :
    (decStep co prev).val 255 b = Except.ok (Value.minKey, b) := rfl

theorem decStep_elems_nil (co : CodecOptions) (prev : DecFuns) :
    (decStep co prev).elems [] = Except.ok [] := rfl

theorem decStep_elems_cons (co : CodecOptions) (prev : DecFuns) (t : Nat)
    (r : Bytes) :
    (decStep co prev).elems (t :: r) =
      match takeCString r with
      | none => Except.error BsonError.invalidBSON
      | some (name, r1) =>
          match prev.val t r1 with
          | Except.error e => Except.error e
          | Except.ok (v, r2) =>
              match prev.elems r2 with
              | Except.error e => Except.error e
              | Except.ok tl =>
                  Except.ok ((name, applyDecodeHook co.transformer_registry v) :: tl) := rfl

theorem decStep_docF (co : CodecOptions) (prev : DecFuns) (b : Bytes) :
    (decStep co prev).docF b =
      if b.length < 4 then Except.error BsonError.valueError
      else if (b.length : Int) < toI32 (readU32 b) then
        Except.error BsonError.invalidObjectSize
      else if toI32 (readU32 b) < 5 then Except.error BsonError.invalidBSON
      else if (b.drop ((toI32 (readU32 b)).toNat - 1)).take 1 ≠ [0] then
        Except.error BsonError.badEoo
      else
        match prev.elems ((b.drop 4).take ((toI32 (readU32 b)).toNat - 5)) with
        | Except.error e => Except.error e
        | Except.ok elems =>
            Except.ok (dictFromElems elems, b.drop ((toI32 (readU32 b)).toNat)) := rfl

theorem decStep_arrF (co : CodecOptions) (prev : DecFuns) (b : Bytes) :
    (decStep co prev).arrF b =
      if b.length < 4 then Except.error BsonError.valueError
      else if (b.length : Int) < toI32 (readU32 b) then
        Except.error BsonError.invalidObjectSize
      else if toI32 (readU32 b) < 5 then Except.error BsonError.invalidBSON
      else if (b.drop ((toI32 (readU32 b)).toNat - 1)).take 1 ≠ [0] then
        Except.error BsonError.badEoo
      else
        match prev.elems ((b.drop 4).take ((toI32 (readU32 b)).toNat - 5)) with
        | Except.error e => Except.error e
        | Except.ok elems =>
            Except.ok (elems.map Prod.snd, b.drop ((toI32 (readU32 b)).toNat)) := rfl

theorem putElement_shape (co : CodecOptions) (n : Bytes) (v : Value) (e : Bytes)
    (h : putElement co false n v = Except.ok e) :
    n.contains 0 = false ∧
    ∃ p, putValue co v = Except.ok p ∧ e = tagOf v :: (n ++ 0 :: p) := by
  rw [putElement] at h
  rw [Bool.false_and] at h
  rw [if_neg (show ¬ (false = true) by decide)] at h
  by_cases hn : n.contains 0 = true
  · rw [if_pos hn] at h
    exact absurd (h : (Except.error BsonError.invalidDocument :
      Except BsonError Bytes) = Except.ok e) (fun hh => Except.noConfusion hh)
  · rw [if_neg hn] at h
    have hnf : n.contains 0 = false := by
      cases hcc : n.contains 0
      · rfl
      · exact absurd hcc hn
    cases hp : putValue co v with
    | error e2 =>
        rw [hp] at h
        exact absurd (h : (Except.error e2 : Except BsonError Bytes) = Except.ok e)
          (fun hh => Except.noConfusion hh)
    | ok p =>
        rw [hp] at h
        have h2 : (Except.ok (tagOf v :: (n ++ 0 :: p)) : Except BsonError Bytes) =
            Except.ok e := h
        exact ⟨hnf, p, rfl, (Except.ok.inj h2).symm⟩

theorem putElements_cons_shape (co : CodecOptions) (ck : Bool) (n : Bytes)
    (v : Value) (tl : List (Bytes × Value)) (body : Bytes)
    (h : putElements co ck ((n, v) :: tl) = Except.ok body) :
    ∃ e restBody, putElement co ck n v = Except.ok e ∧
      putElements co ck tl = Except.ok restBody ∧ body = e ++ restBody := by
  rw [putElements] at h
  cases he : putElement co ck n v with
  | error e1 =>
      rw [he] at h
      exact absurd (h : (Except.error e1 : Except BsonError Bytes) = Except.ok body)
        (fun hh => Except.noConfusion hh)
  | ok e =>
      rw [he] at h
      cases hr : putElements co ck tl with
      | error e2 =>
          rw [hr] at h
          exact absurd
            (h : (Except.error e2 : Except BsonError Bytes) = Except.ok body)
            (fun hh => Except.noConfusion hh)
      | ok restBody =>
          rw [hr] at h
          have h2 : (Except.ok (e ++ restBody) : Except BsonError Bytes) =
              Except.ok body := h
          exact ⟨e, restBody, rfl, rfl, (Except.ok.inj h2).symm⟩

theorem putArrElems_cons_shape (co : CodecOptions) (i : Nat) (v : Value)
    (tl : List Value) (body : Bytes)
    (h : putArrElems co i (v :: tl) = Except.ok body) :
    ∃ e restBody, putElement co false (natDecimal i) v = Except.ok e ∧
      putArrElems co (i + 1) tl = Except.ok restBody ∧ body = e ++ restBody := by
  rw [putArrElems] at h
  cases he : putElement co false (natDecimal i) v with
  | error e1 =>
      rw [he] at h
      exact absurd (h : (Except.error e1 : Except BsonError Bytes) = Except.ok body)
        (fun hh => Except.noConfusion hh)
  | ok e =>
      rw [he] at h
      cases hr : putArrElems co (i + 1) tl with
      | error e2 =>
          rw [hr] at h
          exact absurd
            (h : (Except.error e2 : Except BsonError Bytes) = Except.ok body)
            (fun hh => Except.noConfusion hh)
      | ok restBody =>
          rw [hr] at h
          have h2 : (Except.ok (e ++ restBody) : Except BsonError Bytes) =
              Except.ok body := h
          exact ⟨e, restBody, rfl, rfl, (Except.ok.inj h2).symm⟩

theorem putValue_doc_eq (co : CodecOptions) (d : List (Bytes × Value)) :
    putValue co (Value.doc d) = dict_to_bson d false co := by
  rw [putValue]
  unfold dict_to_bson
  rfl

theorem putValue_arr_shape (co : CodecOptions) (l : List Value) (b : Bytes)
    (h : putValue co (Value.arr l) = Except.ok b) :
    ∃ body, putArrElems co 0 l = Except.ok body ∧
      b = encU32LE (body.length + 5) ++ (body ++ [0]) := by
  rw [putValue] at h
  cases hb : putArrElems co 0 l with
  | error e =>
      rw [hb] at h
      exact absurd (h : (Except.error e : Except BsonError Bytes) = Except.ok b)
        (fun hh => Except.noConfusion hh)
  | ok body =>
      rw [hb] at h
      have h2 : (Except.ok (encU32LE (body.length + 5) ++ (body ++ [0])) :
          Except BsonError Bytes) = Except.ok b := h
      exact ⟨body, rfl, (Except.ok.inj h2).symm⟩

/-- Decoding inverts encoding: the joint induction over decoder fuel for
    value payloads, element regions (both document fields and array members),
    framed documents and framed arrays, for options with no transformer
    registry. -/
theorem dec_spec (co : CodecOptions) (hreg : co.transformer_registry = []) :
    ∀ fuel : Nat,
    (∀ (v : Value) (p rest : Bytes), Value.wf v = true →
        putValue co v = Except.ok p → valNeed v ≤ fuel →
        (decoders co fuel).val (tagOf v) (p ++ rest) = Except.ok (v, rest)) ∧
    (∀ (d : List (Bytes × Value)) (body : Bytes), fieldsWF d = true →
        putElements co false d = Except.ok body → elemsNeed d ≤ fuel →
        (decoders co fuel).elems body = Except.ok d) ∧
    (∀ (i : Nat) (l : List Value) (body : Bytes), valuesWF l = true →
        putArrElems co i l = Except.ok body → arrNeedL l ≤ fuel →
        ∃ pairs, (decoders co fuel).elems body = Except.ok pairs ∧
          pairs.map Prod.snd = l) ∧
    (∀ (d : Doc) (b rest : Bytes), docWF d = true →
        dict_to_bson d false co = Except.ok b → 1 + elemsNeed d ≤ fuel →
        (decoders co fuel).docF (b ++ rest) = Except.ok (d, rest)) ∧
    (∀ (l : List Value) (b rest : Bytes), Value.wf (Value.arr l) = true →
        putValue co (Value.arr l) = Except.ok b → 1 + arrNeedL l ≤ fuel →
        (decoders co fuel).arrF (b ++ rest) = Except.ok (l, rest)) := by
  intro fuel
  induction fuel with
  | zero =>
      refine ⟨?_, ?_, ?_, ?_, ?_⟩
      · intro v p rest _ _ hneed
        exact absurd hneed (by have := one_le_valNeed v; omega)
      · intro d body _ _ hneed
        exact absurd hneed (by have := one_le_elemsNeed d; omega)
      · intro i l body _ _ hneed
        exact absurd hneed (by have := one_le_arrNeedL l; omega)
      · intro d b rest _ _ hneed
        exact absurd hneed (by have := one_le_elemsNeed d; omega)
      · intro l b rest _ _ hneed
        exact absurd hneed (by have := one_le_arrNeedL l; omega)
  | succ fuel ih =>
      obtain ⟨ihVal, ihElems, ihArrE, ihDoc, ihArr⟩ := ih
      refine ⟨?_, ?_, ?_, ?_, ?_⟩
      · -- value payloads
        intro v p rest hwf henc hneed
        cases v with
        | double pl =>
            rw [putValue] at henc
            have hp := Except.ok.inj henc
            subst hp
            have hlen : pl.length = 8 := by simpa [Value.wf] using hwf
            show (decStep co (decoders co fuel)).val 1 (pl ++ rest) =
              Except.ok (Value.double pl, rest)
            rw [decStep_val_1, if_neg (by simp [hlen]),
              show (8 : Nat) = pl.length from hlen.symm,
              List.take_left, List.drop_left]
        | string s =>
            rw [putValue] at henc
            have hp := Except.ok.inj henc
            subst hp
            have hb : s.length + 1 ≤ 2147483647 := by simpa [Value.wf] using hwf
            show (decStep co (decoders co fuel)).val 2
              ((encU32LE (s.length + 1) ++ (s ++ [0])) ++ rest) =
              Except.ok (Value.string s, rest)
            have hform : (encU32LE (s.length + 1) ++ (s ++ [0])) ++ rest =
                encU32LE (s.length + 1) ++ (s ++ (0 :: rest)) := by simp
            rw [hform, decStep_val_2, readU32_encU32,
              Nat.mod_eq_of_lt (show s.length + 1 < 4294967296 by omega)]
            have ht : toI32 (s.length + 1) = ((s.length + 1 : Nat) : Int) := by
              unfold toI32
              rw [if_pos (by omega)]
            rw [ht, Int.toNat_natCast]
            have hlenb : (encU32LE (s.length + 1) ++ (s ++ (0 :: rest))).length =
                4 + s.length + 1 + rest.length := by
              simp [encU32LE]
              omega
            rw [if_neg (by rw [hlenb]; omega)]
            rw [if_neg (show ¬ (((s.length + 1 : Nat) : Int) < 1) by
              push_cast; omega)]
            rw [if_neg (by rw [hlenb]; omega)]
            have heoo : ((encU32LE (s.length + 1) ++ (s ++ (0 :: rest))).drop
                (4 + (s.length + 1) - 1)).take 1 = [0] := by
              have e2 : encU32LE (s.length + 1) ++ (s ++ (0 :: rest)) =
                  (encU32LE (s.length + 1) ++ s) ++ (0 :: rest) := by simp
              rw [show 4 + (s.length + 1) - 1 =
                  (encU32LE (s.length + 1) ++ s).length by
                simp [encU32LE]
                omega, e2, List.drop_left]
              rfl
            rw [if_neg (show ¬ (((encU32LE (s.length + 1) ++
                (s ++ (0 :: rest))).drop (4 + (s.length + 1) - 1)).take 1 ≠ [0])
              from fun hh => hh heoo)]
            have hd4 : (encU32LE (s.length + 1) ++ (s ++ (0 :: rest))).drop 4 =
                s ++ (0 :: rest) := List.drop_left' rfl
            have hrest : (encU32LE (s.length + 1) ++ (s ++ (0 :: rest))).drop
                (4 + (s.length + 1)) = rest := by
              have e1 := (List.drop_drop (s.length + 1) 4
                (encU32LE (s.length + 1) ++ (s ++ (0 :: rest)))).symm
              rw [e1, hd4]
              have e2 : s ++ (0 :: rest) = (s ++ [0]) ++ rest := by simp
              rw [e2]
              exact List.drop_left' (by simp)
            rw [hd4, hrest, show s.length + 1 - 1 = s.length from rfl,
              List.take_left]
        | doc d =>
            have hwd : docWF d = true := by simpa [Value.wf] using hwf
            rw [putValue_doc_eq] at henc
            have hneed2 : 1 + elemsNeed d ≤ fuel := by
              simp [valNeed] at hneed
              omega
            show (decStep co (decoders co fuel)).val 3 (p ++ rest) =
              Except.ok (Value.doc d, rest)
            rw [decStep_val_3, ihDoc d p rest hwd henc hneed2]
        | arr l =>
            have hneed2 : 1 + arrNeedL l ≤ fuel := by
              simp [valNeed] at hneed
              omega
            show (decStep co (decoders co fuel)).val 4 (p ++ rest) =
              Except.ok (Value.arr l, rest)
            rw [decStep_val_4, ihArr l p rest hwf henc hneed2]
        | binary st bs =>
            rw [putValue] at henc
            have hp := Except.ok.inj henc
            subst hp
            have hwb : st < 256 ∧ bs.length ≤ 2147483647 := by
              simpa [Value.wf] using hwf
            show (decStep co (decoders co fuel)).val 5
              ((encU32LE bs.length ++ st :: bs) ++ rest) =
              Except.ok (Value.binary st bs, rest)
            have hform : (encU32LE bs.length ++ st :: bs) ++ rest =
                encU32LE bs.length ++ (st :: (bs ++ rest)) := by simp
            rw [hform, decStep_val_5, readU32_encU32,
              Nat.mod_eq_of_lt (show bs.length < 4294967296 by omega)]
            have ht : toI32 bs.length = ((bs.length : Nat) : Int) := by
              unfold toI32
              rw [if_pos (by omega)]
            rw [ht, Int.toNat_natCast]
            have hlenb : (encU32LE bs.length ++ (st :: (bs ++ rest))).length =
                4 + 1 + bs.length + rest.length := by
              simp [encU32LE]
              omega
            rw [if_neg (by rw [hlenb]; omega)]
            rw [if_neg (show ¬ (((bs.length : Nat) : Int) < 0) by
              omega)]
            rw [if_neg (by rw [hlenb]; omega)]
            have hd4 : (encU32LE bs.length ++ (st :: (bs ++ rest))).drop 4 =
                st :: (bs ++ rest) := List.drop_left' rfl
            have hd5 : (encU32LE bs.length ++ (st :: (bs ++ rest))).drop 5 =
                bs ++ rest := by
              have e1 := (List.drop_drop 1 4
                (encU32LE bs.length ++ (st :: (bs ++ rest)))).symm
              rw [e1, hd4]
              rfl
            have hrest : (encU32LE bs.length ++ (st :: (bs ++ rest))).drop
                (5 + bs.length) = rest := by
              have e1 := (List.drop_drop bs.length 5
                (encU32LE bs.length ++ (st :: (bs ++ rest)))).symm
              rw [e1, hd5]
              exact List.drop_left' rfl
            rw [hd4, hd5, hrest, List.take_left]
            rfl
        | undefined =>
            rw [putValue] at henc
            have hp := Except.ok.inj henc
            subst hp
            show (decStep co (decoders co fuel)).val 6 ([] ++ rest) =
              Except.ok (Value.undefined, rest)
            rw [decStep_val_6]
            rfl
        | regex pt fl =>
            rw [putValue] at henc
            have hp := Except.ok.inj henc
            subst hp
            obtain ⟨hp0, hf0⟩ := regexWF_parts hwf
            show (decStep co (decoders co fuel)).val 11
              ((pt ++ [0] ++ fl ++ [0]) ++ rest) =
              Except.ok (Value.regex pt fl, rest)
            have hform : ((pt ++ [0] ++ fl ++ [0]) : Bytes) ++ rest =
                pt ++ 0 :: (fl ++ 0 :: rest) := by simp
            rw [hform, decStep_val_11]
            simp only [takeCString_spec pt (fl ++ 0 :: rest) (by simpa using hp0),
              takeCString_spec fl rest (by simpa using hf0)]
        | dbPointer ns oid =>
            rw [putValue] at henc
            have hp := Except.ok.inj henc
            subst hp
            have hw : ns.length + 1 ≤ 2147483647 ∧ oid.length = 12 := by
              simpa [Value.wf] using hwf
            obtain ⟨hns, hoid⟩ := hw
            show (decStep co (decoders co fuel)).val 12
              ((encU32LE (ns.length + 1) ++ ns ++ [0] ++ oid) ++ rest) =
              Except.ok (Value.dbPointer ns oid, rest)
            have hform : ((encU32LE (ns.length + 1) ++ ns ++ [0] ++ oid) : Bytes)
                ++ rest =
                encU32LE (ns.length + 1) ++ (ns ++ (0 :: (oid ++ rest))) := by
              simp
            rw [hform, decStep_val_12, readU32_encU32,
              Nat.mod_eq_of_lt (show ns.length + 1 < 4294967296 by omega)]
            have ht : toI32 (ns.length + 1) = ((ns.length + 1 : Nat) : Int) := by
              unfold toI32
              rw [if_pos (by omega)]
            rw [ht, Int.toNat_natCast]
            have hlenb : (encU32LE (ns.length + 1) ++
                (ns ++ (0 :: (oid ++ rest)))).length =
                4 + ns.length + 1 + oid.length + rest.length := by
              simp [encU32LE]
              omega
            rw [if_neg (by rw [hlenb]; omega)]
            rw [if_neg (show ¬ (((ns.length + 1 : Nat) : Int) < 1) by omega)]
            rw [if_neg (by rw [hlenb]; omega)]
            have heoo : ((encU32LE (ns.length + 1) ++
                (ns ++ (0 :: (oid ++ rest)))).drop
                (4 + (ns.length + 1) - 1)).take 1 = [0] := by
              have e2 : encU32LE (ns.length + 1) ++ (ns ++ (0 :: (oid ++ rest))) =
                  (encU32LE (ns.length + 1) ++ ns) ++ (0 :: (oid ++ rest)) := by
                simp
              rw [show 4 + (ns.length + 1) - 1 =
                  (encU32LE (ns.length + 1) ++ ns).length by
                simp [encU32LE]
                omega, e2, List.drop_left]
              rfl
            rw [if_neg (not_ne_iff.mpr heoo)]
            have hd4 : (encU32LE (ns.length + 1) ++
                (ns ++ (0 :: (oid ++ rest)))).drop 4 =
                ns ++ (0 :: (oid ++ rest)) := List.drop_left' rfl
            have hdoid : (encU32LE (ns.length + 1) ++
                (ns ++ (0 :: (oid ++ rest)))).drop (4 + (ns.length + 1)) =
                oid ++ rest := by
              have e1 := (List.drop_drop (ns.length + 1) 4
                (encU32LE (ns.length + 1) ++ (ns ++ (0 :: (oid ++ rest))))).symm
              rw [e1, hd4]
              have e2 : ns ++ (0 :: (oid ++ rest)) =
                  (ns ++ [0]) ++ (oid ++ rest) := by simp
              rw [e2]
              exact List.drop_left' (by simp)
            have hrest : (encU32LE (ns.length + 1) ++
                (ns ++ (0 :: (oid ++ rest)))).drop (4 + (ns.length + 1) + 12) =
                rest := by
              have e1 := (List.drop_drop 12 (4 + (ns.length + 1))
                (encU32LE (ns.length + 1) ++ (ns ++ (0 :: (oid ++ rest))))).symm
              rw [e1, hdoid, show (12 : Nat) = oid.length from hoid.symm,
                List.drop_left]
            rw [hd4, hdoid, hrest, show ns.length + 1 - 1 = ns.length from rfl,
              List.take_left, show (12 : Nat) = oid.length from hoid.symm,
              List.take_left]
        | code s =>
            rw [putValue] at henc
            have hp := Except.ok.inj henc
            subst hp
            have hb : s.length + 1 ≤ 2147483647 := by simpa [Value.wf] using hwf
            show (decStep co (decoders co fuel)).val 13
              ((encU32LE (s.length + 1) ++ (s ++ [0])) ++ rest) =
              Except.ok (Value.code s, rest)
            have hform : (encU32LE (s.length + 1) ++ (s ++ [0])) ++ rest =
                encU32LE (s.length + 1) ++ (s ++ (0 :: rest)) := by simp
            rw [hform, decStep_val_13, readU32_encU32,
              Nat.mod_eq_of_lt (show s.length + 1 < 4294967296 by omega)]
            have ht : toI32 (s.length + 1) = ((s.length + 1 : Nat) : Int) := by
              unfold toI32
              rw [if_pos (by omega)]
            rw [ht, Int.toNat_natCast]
            have hlenb : (encU32LE (s.length + 1) ++ (s ++ (0 :: rest))).length =
                4 + s.length + 1 + rest.length := by
              simp [encU32LE]
              omega
            rw [if_neg (by rw [hlenb]; omega)]
            rw [if_neg (show ¬ (((s.length + 1 : Nat) : Int) < 1) by
              push_cast; omega)]
            rw [if_neg (by rw [hlenb]; omega)]
            have heoo : ((encU32LE (s.length + 1) ++ (s ++ (0 :: rest))).drop
                (4 + (s.length + 1) - 1)).take 1 = [0] := by
              have e2 : encU32LE (s.length + 1) ++ (s ++ (0 :: rest)) =
                  (encU32LE (s.length + 1) ++ s) ++ (0 :: rest) := by simp
              rw [show 4 + (s.length + 1) - 1 =
                  (encU32LE (s.length + 1) ++ s).length by
                simp [encU32LE]
                omega, e2, List.drop_left]
              rfl
            rw [if_neg (show ¬ (((encU32LE (s.length + 1) ++
                (s ++ (0 :: rest))).drop (4 + (s.length + 1) - 1)).take 1 ≠ [0])
              from fun hh => hh heoo)]
            have hd4 : (encU32LE (s.length + 1) ++ (s ++ (0 :: rest))).drop 4 =
                s ++ (0 :: rest) := List.drop_left' rfl
            have hrest : (encU32LE (s.length + 1) ++ (s ++ (0 :: rest))).drop
                (4 + (s.length + 1)) = rest := by
              have e1 := (List.drop_drop (s.length + 1) 4
                (encU32LE (s.length + 1) ++ (s ++ (0 :: rest)))).symm
              rw [e1, hd4]
              have e2 : s ++ (0 :: rest) = (s ++ [0]) ++ rest := by simp
              rw [e2]
              exact List.drop_left' (by simp)
            rw [hd4, hrest, show s.length + 1 - 1 = s.length from rfl,
              List.take_left]
        | symbol s =>
            rw [putValue] at henc
            have hp := Except.ok.inj henc
            subst hp
            have hb : s.length + 1 ≤ 2147483647 := by simpa [Value.wf] using hwf
            show (decStep co (decoders co fuel)).val 14
              ((encU32LE (s.length + 1) ++ (s ++ [0])) ++ rest) =
              Except.ok (Value.symbol s, rest)
            have hform : (encU32LE (s.length + 1) ++ (s ++ [0])) ++ rest =
                encU32LE (s.length + 1) ++ (s ++ (0 :: rest)) := by simp
            rw [hform, decStep_val_14, readU32_encU32,
              Nat.mod_eq_of_lt (show s.length + 1 < 4294967296 by omega)]
            have ht : toI32 (s.length + 1) = ((s.length + 1 : Nat) : Int) := by
              unfold toI32
              rw [if_pos (by omega)]
            rw [ht, Int.toNat_natCast]
            have hlenb : (encU32LE (s.length + 1) ++ (s ++ (0 :: rest))).length =
                4 + s.length + 1 + rest.length := by
              simp [encU32LE]
              omega
            rw [if_neg (by rw [hlenb]; omega)]
            rw [if_neg (show ¬ (((s.length + 1 : Nat) : Int) < 1) by
              push_cast; omega)]
            rw [if_neg (by rw [hlenb]; omega)]
            have heoo : ((encU32LE (s.length + 1) ++ (s ++ (0 :: rest))).drop
                (4 + (s.length + 1) - 1)).take 1 = [0] := by
              have e2 : encU32LE (s.length + 1) ++ (s ++ (0 :: rest)) =
                  (encU32LE (s.length + 1) ++ s) ++ (0 :: rest) := by simp
              rw [show 4 + (s.length + 1) - 1 =
                  (encU32LE (s.length + 1) ++ s).length by
                simp [encU32LE]
                omega, e2, List.drop_left]
              rfl
            rw [if_neg (show ¬ (((encU32LE (s.length + 1) ++
                (s ++ (0 :: rest))).drop (4 + (s.length + 1) - 1)).take 1 ≠ [0])
              from fun hh => hh heoo)]
            have hd4 : (encU32LE (s.length + 1) ++ (s ++ (0 :: rest))).drop 4 =
                s ++ (0 :: rest) := List.drop_left' rfl
            have hrest : (encU32LE (s.length + 1) ++ (s ++ (0 :: rest))).drop
                (4 + (s.length + 1)) = rest := by
              have e1 := (List.drop_drop (s.length + 1) 4
                (encU32LE (s.length + 1) ++ (s ++ (0 :: rest)))).symm
              rw [e1, hd4]
              have e2 : s ++ (0 :: rest) = (s ++ [0]) ++ rest := by simp
              rw [e2]
              exact List.drop_left' (by simp)
            rw [hd4, hrest, show s.length + 1 - 1 = s.length from rfl,
              List.take_left]
        | codeWScope sc scope =>
            obtain ⟨hs, hds, hbound⟩ := cwsWF_parts hwf
            cases hpe : putElements co false scope with
            | error e =>
                rw [putValue, hpe] at henc
                exact absurd (henc : (Except.error e : Except BsonError Bytes) =
                  Except.ok p) (fun hh => Except.noConfusion hh)
            | ok body =>
                rw [putValue, hpe] at henc
                have hp := Except.ok.inj (henc :
                  (Except.ok (encU32LE (4 + (4 + sc.length + 1) +
                      (body.length + 5)) ++
                    (encU32LE (sc.length + 1) ++ sc ++ [0]) ++
                    (encU32LE (body.length + 5) ++ body ++ [0])) :
                    Except BsonError Bytes) = Except.ok p)
                subst hp
                have hblen : body.length = elemsSize scope :=
                  putElements_length co scope body (docWF_parts hds).2.1 hpe
                have hdb : dict_to_bson scope false co =
                    Except.ok (encU32LE (body.length + 5) ++ body ++ [0]) := by
                  unfold dict_to_bson
                  rw [hpe]
                  rfl
                have hneed2 : 1 + elemsNeed scope ≤ fuel := by
                  simp [valNeed] at hneed
                  omega
                have hdocF := ihDoc scope
                  (encU32LE (body.length + 5) ++ body ++ [0]) rest hds hdb hneed2
                show (decStep co (decoders co fuel)).val 15
                  ((encU32LE (4 + (4 + sc.length + 1) + (body.length + 5)) ++
                    (encU32LE (sc.length + 1) ++ sc ++ [0]) ++
                    (encU32LE (body.length + 5) ++ body ++ [0])) ++ rest) =
                  Except.ok (Value.codeWScope sc scope, rest)
                have hform : (encU32LE (4 + (4 + sc.length + 1) +
                      (body.length + 5)) ++
                    (encU32LE (sc.length + 1) ++ sc ++ [0]) ++
                    (encU32LE (body.length + 5) ++ body ++ [0])) ++ rest =
                    encU32LE (4 + (4 + sc.length + 1) + (body.length + 5)) ++
                      (encU32LE (sc.length + 1) ++ (sc ++ (0 ::
                        ((encU32LE (body.length + 5) ++ body ++ [0]) ++
                          rest)))) := by
                  simp
                rw [hform, decStep_val_15]
                have hd4 : (encU32LE (4 + (4 + sc.length + 1) +
                      (body.length + 5)) ++
                    (encU32LE (sc.length + 1) ++ (sc ++ (0 ::
                      ((encU32LE (body.length + 5) ++ body ++ [0]) ++
                        rest))))).drop 4 =
                    encU32LE (sc.length + 1) ++ (sc ++ (0 ::
                      ((encU32LE (body.length + 5) ++ body ++ [0]) ++ rest))) :=
                  List.drop_left' rfl
                rw [hd4,
                  readU32_encU32 (4 + (4 + sc.length + 1) + (body.length + 5)),
                  readU32_encU32 (sc.length + 1),
                  Nat.mod_eq_of_lt (show 4 + (4 + sc.length + 1) +
                    (body.length + 5) < 4294967296 by omega),
                  Nat.mod_eq_of_lt (show sc.length + 1 < 4294967296 by omega)]
                have ht1 : toI32 (4 + (4 + sc.length + 1) + (body.length + 5)) =
                    ((4 + (4 + sc.length + 1) + (body.length + 5) : Nat) :
                      Int) := by
                  unfold toI32
                  rw [if_pos (by omega)]
                have ht2 : toI32 (sc.length + 1) =
                    ((sc.length + 1 : Nat) : Int) := by
                  unfold toI32
                  rw [if_pos (by omega)]
                rw [ht1, ht2, Int.toNat_natCast]
                have hlenN : (encU32LE (4 + (4 + sc.length + 1) +
                      (body.length + 5)) ++
                    (encU32LE (sc.length + 1) ++ (sc ++ (0 ::
                      ((encU32LE (body.length + 5) ++ body ++ [0]) ++
                        rest))))).length =
                    4 + (4 + sc.length + 1) + (body.length + 5) +
                      rest.length := by
                  simp [encU32LE]
                  omega
                have hlenS : (encU32LE (sc.length + 1) ++ (sc ++ (0 ::
                    ((encU32LE (body.length + 5) ++ body ++ [0]) ++
                      rest)))).length =
                    4 + sc.length + 1 + (body.length + 5) + rest.length := by
                  simp [encU32LE]
                  omega
                rw [if_neg (by rw [hlenN]; omega)]
                rw [if_neg (by rw [hlenN]; omega)]
                rw [if_neg (by rw [hlenS]; omega)]
                rw [if_neg (show ¬ (((sc.length + 1 : Nat) : Int) < 1) by omega)]
                rw [if_neg (by rw [hlenS]; omega)]
                have heoo : ((encU32LE (sc.length + 1) ++ (sc ++ (0 ::
                    ((encU32LE (body.length + 5) ++ body ++ [0]) ++
                      rest)))).drop (4 + (sc.length + 1) - 1)).take 1 = [0] := by
                  have e2 : encU32LE (sc.length + 1) ++ (sc ++ (0 ::
                      ((encU32LE (body.length + 5) ++ body ++ [0]) ++ rest))) =
                      (encU32LE (sc.length + 1) ++ sc) ++ (0 ::
                      ((encU32LE (body.length + 5) ++ body ++ [0]) ++
                        rest)) := by
                    simp
                  rw [show 4 + (sc.length + 1) - 1 =
                      (encU32LE (sc.length + 1) ++ sc).length by
                    simp [encU32LE]
                    omega, e2, List.drop_left]
                  rfl
                rw [if_neg (not_ne_iff.mpr heoo)]
                have hdin : (encU32LE (sc.length + 1) ++ (sc ++ (0 ::
                    ((encU32LE (body.length + 5) ++ body ++ [0]) ++
                      rest)))).drop 4 =
                    sc ++ (0 :: ((encU32LE (body.length + 5) ++ body ++ [0]) ++
                      rest)) := List.drop_left' rfl
                have hdropS : (encU32LE (sc.length + 1) ++ (sc ++ (0 ::
                    ((encU32LE (body.length + 5) ++ body ++ [0]) ++
                      rest)))).drop (4 + (sc.length + 1)) =
                    (encU32LE (body.length + 5) ++ body ++ [0]) ++ rest := by
                  have e1 := (List.drop_drop (sc.length + 1) 4
                    (encU32LE (sc.length + 1) ++ (sc ++ (0 ::
                      ((encU32LE (body.length + 5) ++ body ++ [0]) ++
                        rest))))).symm
                  rw [e1, hdin]
                  have e2 : sc ++ (0 ::
                      ((encU32LE (body.length + 5) ++ body ++ [0]) ++ rest)) =
                      (sc ++ [0]) ++
                        ((encU32LE (body.length + 5) ++ body ++ [0]) ++
                          rest) := by
                    simp
                  rw [e2]
                  exact List.drop_left' (by simp)
                have hsx : ((encU32LE (sc.length + 1) ++ (sc ++ (0 ::
                    ((encU32LE (body.length + 5) ++ body ++ [0]) ++
                      rest)))).drop 4).take ((sc.length + 1) - 1) = sc := by
                  rw [hdin, show sc.length + 1 - 1 = sc.length from rfl,
                    List.take_left]
                simp only [hdropS, hdocF, hsx]
        | objectId bs =>
            rw [putValue] at henc
            have hp := Except.ok.inj henc
            subst hp
            have hlen : bs.length = 12 := by simpa [Value.wf] using hwf
            show (decStep co (decoders co fuel)).val 7 (bs ++ rest) =
              Except.ok (Value.objectId bs, rest)
            rw [decStep_val_7, if_neg (by simp [hlen]),
              show (12 : Nat) = bs.length from hlen.symm,
              List.take_left, List.drop_left]
        | bool t =>
            rw [putValue] at henc
            have hp := Except.ok.inj henc
            subst hp
            cases t with
            | false =>
                show (decStep co (decoders co fuel)).val 8
                  ([(0 : Nat)] ++ rest) = Except.ok (Value.bool false, rest)
                rw [decStep_val_8]
                rfl
            | true =>
                show (decStep co (decoders co fuel)).val 8
                  ([(1 : Nat)] ++ rest) = Except.ok (Value.bool true, rest)
                rw [decStep_val_8]
                rfl
        | datetime ms =>
            rw [putValue] at henc
            have hp := Except.ok.inj henc
            subst hp
            have hr : -9223372036854775808 ≤ ms ∧ ms < 9223372036854775808 := by
              simpa [Value.wf] using hwf
            show (decStep co (decoders co fuel)).val 9 (encI64 ms ++ rest) =
              Except.ok (Value.datetime ms, rest)
            rw [decStep_val_9, if_neg (by simp [encI64, encU64LE]),
              toI64_readU64_encI64 ms rest hr.1 hr.2]
            rw [show encI64 ms ++ rest = (encI64 ms ++ rest) from rfl]
            have hdrop : (encI64 ms ++ rest).drop 8 = rest :=
              List.drop_left' rfl
            rw [hdrop]
        | null =>
            rw [putValue] at henc
            have hp := Except.ok.inj henc
            subst hp
            show (decStep co (decoders co fuel)).val 10 ([] ++ rest) =
              Except.ok (Value.null, rest)
            rw [decStep_val_10]
            rfl
        | int32 i =>
            rw [putValue] at henc
            have hp := Except.ok.inj henc
            subst hp
            have hr : -2147483648 ≤ i ∧ i < 2147483648 := by
              simpa [Value.wf] using hwf
            show (decStep co (decoders co fuel)).val 16 (encI32 i ++ rest) =
              Except.ok (Value.int32 i, rest)
            rw [decStep_val_16, if_neg (by simp [encI32, encU32LE]),
              toI32_readU32_encI32 i rest hr.1 hr.2]
            have hdrop : (encI32 i ++ rest).drop 4 = rest :=
              List.drop_left' rfl
            rw [hdrop]
        | timestamp t =>
            rw [putValue] at henc
            have hp := Except.ok.inj henc
            subst hp
            have hr : t < 18446744073709551616 := by
              simpa [Value.wf] using hwf
            show (decStep co (decoders co fuel)).val 17 (encU64LE t ++ rest) =
              Except.ok (Value.timestamp t, rest)
            rw [decStep_val_17, if_neg (by simp [encU64LE]),
              readU64_encU64_eq t rest hr]
            have hdrop : (encU64LE t ++ rest).drop 8 = rest :=
              List.drop_left' rfl
            rw [hdrop]
        | int64 i =>
            rw [putValue] at henc
            have hp := Except.ok.inj henc
            subst hp
            have hr : -9223372036854775808 ≤ i ∧ i < 9223372036854775808 := by
              simpa [Value.wf] using hwf
            show (decStep co (decoders co fuel)).val 18 (encI64 i ++ rest) =
              Except.ok (Value.int64 i, rest)
            rw [decStep_val_18, if_neg (by simp [encI64, encU64LE]),
              toI64_readU64_encI64 i rest hr.1 hr.2]
            have hdrop : (encI64 i ++ rest).drop 8 = rest :=
              List.drop_left' rfl
            rw [hdrop]
        | decimal128 pl =>
            rw [putValue] at henc
            have hp := Except.ok.inj henc
            subst hp
            have hlen : pl.length = 16 := by simpa [Value.wf] using hwf
            show (decStep co (decoders co fuel)).val 19 (pl ++ rest) =
              Except.ok (Value.decimal128 pl, rest)
            rw [decStep_val_19, if_neg (by simp [hlen]),
              show (16 : Nat) = pl.length from hlen.symm,
              List.take_left, List.drop_left]
        | minKey =>
            rw [putValue] at henc
            have hp := Except.ok.inj henc
            subst hp
            show (decStep co (decoders co fuel)).val 255 ([] ++ rest) =
              Except.ok (Value.minKey, rest)
            rw [decStep_val_255]
            rfl
        | maxKey =>
            rw [putValue] at henc
            have hp := Except.ok.inj henc
            subst hp
            show (decStep co (decoders co fuel)).val 127 ([] ++ rest) =
              Except.ok (Value.maxKey, rest)
            rw [decStep_val_127]
            rfl
      · -- document element regions
        intro d body hfw henc hneed
        cases d with
        | nil =>
            rw [putElements] at henc
            have hb := Except.ok.inj henc
            rw [← hb]
            exact decStep_elems_nil co _
        | cons q tl =>
            rcases q with ⟨n, v⟩
            obtain ⟨hn, hv, htl⟩ := fieldsWF_cons hfw
            obtain ⟨e, restBody, he, hr, hbody⟩ :=
              putElements_cons_shape co false n v tl body henc
            obtain ⟨hn2, p, hp, he2⟩ := putElement_shape co n v e he
            subst hbody
            subst he2
            have hform : (tagOf v :: (n ++ 0 :: p)) ++ restBody =
                tagOf v :: (n ++ (0 :: (p ++ restBody))) := by simp
            rw [hform]
            show (decStep co (decoders co fuel)).elems
              (tagOf v :: (n ++ (0 :: (p ++ restBody)))) =
              Except.ok ((n, v) :: tl)
            rw [decStep_elems_cons,
              takeCString_spec n (p ++ restBody) (by simpa using hn)]
            have hval := ihVal v p restBody hv hp (by
              simp [elemsNeed] at hneed
              have := one_le_elemsNeed tl
              omega)
            have helems := ihElems tl restBody htl hr (by
              simp [elemsNeed] at hneed
              have := one_le_valNeed v
              omega)
            simp only [hval, helems, hreg, applyDecodeHook]
      · -- array element regions
        intro i l body hvw henc hneed
        cases l with
        | nil =>
            rw [putArrElems] at henc
            have hb := Except.ok.inj henc
            rw [← hb]
            exact ⟨[], decStep_elems_nil co _, rfl⟩
        | cons v tl =>
            obtain ⟨hv, htl⟩ := valuesWF_cons hvw
            obtain ⟨e, restBody, he, hr, hbody⟩ :=
              putArrElems_cons_shape co i v tl body henc
            obtain ⟨hn2, p, hp, he2⟩ := putElement_shape co (natDecimal i) v e he
            subst hbody
            subst he2
            obtain ⟨pairsTl, hpt, hmap⟩ := ihArrE (i + 1) tl restBody htl hr (by
              simp [arrNeedL] at hneed
              have := one_le_valNeed v
              omega)
            refine ⟨(natDecimal i, v) :: pairsTl, ?_, by simp [hmap]⟩
            have hform : (tagOf v :: (natDecimal i ++ 0 :: p)) ++ restBody =
                tagOf v :: (natDecimal i ++ (0 :: (p ++ restBody))) := by simp
            rw [hform]
            show (decStep co (decoders co fuel)).elems
              (tagOf v :: (natDecimal i ++ (0 :: (p ++ restBody)))) =
              Except.ok ((natDecimal i, v) :: pairsTl)
            rw [decStep_elems_cons,
              takeCString_spec (natDecimal i) (p ++ restBody)
                (natDecimal_no_zero i)]
            have hval := ihVal v p restBody hv hp (by
              simp [arrNeedL] at hneed
              have := one_le_arrNeedL tl
              omega)
            simp only [hval, hpt, hreg, applyDecodeHook]
      · -- framed documents
        intro d b rest hwd henc hneed
        obtain ⟨body, hbody, hshape⟩ := dict_to_bson_shape co d b henc
        obtain ⟨hnd, hfw, hbound⟩ := docWF_parts hwd
        have hblen : body.length = elemsSize d :=
          putElements_length co d body hfw hbody
        subst hshape
        have hform : (encU32LE (body.length + 5) ++ (body ++ [0])) ++ rest =
            encU32LE (body.length + 5) ++ (body ++ (0 :: rest)) := by simp
        rw [hform]
        show (decStep co (decoders co fuel)).docF
          (encU32LE (body.length + 5) ++ (body ++ (0 :: rest))) =
          Except.ok (d, rest)
        rw [decStep_docF, readU32_encU32,
          Nat.mod_eq_of_lt (show body.length + 5 < 4294967296 by omega)]
        have ht : toI32 (body.length + 5) = ((body.length + 5 : Nat) : Int) := by
          unfold toI32
          rw [if_pos (by omega)]
        rw [ht, Int.toNat_natCast]
        have hlenb : (encU32LE (body.length + 5) ++
            (body ++ (0 :: rest))).length = body.length + 5 + rest.length := by
          simp [encU32LE]
          omega
        rw [if_neg (by rw [hlenb]; omega)]
        rw [if_neg (show ¬ (((encU32LE (body.length + 5) ++
            (body ++ (0 :: rest))).length : Int) <
            ((body.length + 5 : Nat) : Int)) by rw [hlenb]; push_cast; omega)]
        rw [if_neg (show ¬ (((body.length + 5 : Nat) : Int) < 5) by
          push_cast; omega)]
        have heoo : ((encU32LE (body.length + 5) ++
            (body ++ (0 :: rest))).drop (body.length + 5 - 1)).take 1 = [0] := by
          have e2 : encU32LE (body.length + 5) ++ (body ++ (0 :: rest)) =
              (encU32LE (body.length + 5) ++ body) ++ (0 :: rest) := by simp
          rw [show body.length + 5 - 1 =
              (encU32LE (body.length + 5) ++ body).length by
            simp [encU32LE], e2, List.drop_left]
          rfl
        rw [if_neg (show ¬ (((encU32LE (body.length + 5) ++
            (body ++ (0 :: rest))).drop (body.length + 5 - 1)).take 1 ≠ [0])
          from fun hh => hh heoo)]
        have hd4 : (encU32LE (body.length + 5) ++
            (body ++ (0 :: rest))).drop 4 = body ++ (0 :: rest) :=
          List.drop_left' rfl
        have hreg5 : ((encU32LE (body.length + 5) ++
            (body ++ (0 :: rest))).drop 4).take (body.length + 5 - 5) = body := by
          rw [hd4, show body.length + 5 - 5 = body.length from rfl,
            List.take_left]
        have helems := ihElems d body hfw hbody (by omega)
        have hdropfin : (encU32LE (body.length + 5) ++
            (body ++ (0 :: rest))).drop (body.length + 5) = rest := by
          have e3 : encU32LE (body.length + 5) ++ (body ++ (0 :: rest)) =
              (encU32LE (body.length + 5) ++ (body ++ [0])) ++ rest := by simp
          rw [e3]
          exact List.drop_left' (by simp [encU32LE])
        simp only [hreg5, helems, hdropfin, dictFromElems_self d hnd]
      · -- framed arrays
        intro l b rest hwa henc hneed
        obtain ⟨body, hbody, hshape⟩ := putValue_arr_shape co l b henc
        obtain ⟨hvw, hbound⟩ := arrWF_parts hwa
        have hblen : body.length = arrElemsSize 0 l :=
          putArrElems_length co 0 l body hvw hbody
        subst hshape
        have hform : (encU32LE (body.length + 5) ++ (body ++ [0])) ++ rest =
            encU32LE (body.length + 5) ++ (body ++ (0 :: rest)) := by simp
        rw [hform]
        show (decStep co (decoders co fuel)).arrF
          (encU32LE (body.length + 5) ++ (body ++ (0 :: rest))) =
          Except.ok (l, rest)
        rw [decStep_arrF, readU32_encU32,
          Nat.mod_eq_of_lt (show body.length + 5 < 4294967296 by omega)]
        have ht : toI32 (body.length + 5) = ((body.length + 5 : Nat) : Int) := by
          unfold toI32
          rw [if_pos (by omega)]
        rw [ht, Int.toNat_natCast]
        have hlenb : (encU32LE (body.length + 5) ++
            (body ++ (0 :: rest))).length = body.length + 5 + rest.length := by
          simp [encU32LE]
          omega
        rw [if_neg (by rw [hlenb]; omega)]
        rw [if_neg (show ¬ (((encU32LE (body.length + 5) ++
            (body ++ (0 :: rest))).length : Int) <
            ((body.length + 5 : Nat) : Int)) by rw [hlenb]; push_cast; omega)]
        rw [if_neg (show ¬ (((body.length + 5 : Nat) : Int) < 5) by
          push_cast; omega)]
        have heoo : ((encU32LE (body.length + 5) ++
            (body ++ (0 :: rest))).drop (body.length + 5 - 1)).take 1 = [0] := by
          have e2 : encU32LE (body.length + 5) ++ (body ++ (0 :: rest)) =
              (encU32LE (body.length + 5) ++ body) ++ (0 :: rest) := by simp
          rw [show body.length + 5 - 1 =
              (encU32LE (body.length + 5) ++ body).length by
            simp [encU32LE], e2, List.drop_left]
          rfl
        rw [if_neg (show ¬ (((encU32LE (body.length + 5) ++
            (body ++ (0 :: rest))).drop (body.length + 5 - 1)).take 1 ≠ [0])
          from fun hh => hh heoo)]
        have hd4 : (encU32LE (body.length + 5) ++
            (body ++ (0 :: rest))).drop 4 = body ++ (0 :: rest) :=
          List.drop_left' rfl
        have hreg5 : ((encU32LE (body.length + 5) ++
            (body ++ (0 :: rest))).drop 4).take (body.length + 5 - 5) = body := by
          rw [hd4, show body.length + 5 - 5 = body.length from rfl,
            List.take_left]
        obtain ⟨pairs, hpairs, hmap⟩ := ihArrE 0 l body hvw hbody (by omega)
        have hdropfin : (encU32LE (body.length + 5) ++
            (body ++ (0 :: rest))).drop (body.length + 5) = rest := by
          have e3 : encU32LE (body.length + 5) ++ (body ++ (0 :: rest)) =
              (encU32LE (body.length + 5) ++ (body ++ [0])) ++ rest := by simp
          rw [e3]
          exact List.drop_left' (by simp [encU32LE])
        simp only [hreg5, hpairs, hdropfin, hmap]

/-- Encode-decode round trip for whole documents: decoding pyb-encoded bytes
    of a well-formed mapping with the same options recovers the mapping, as
    long as the options carry no transformer registry (decode hooks rewrite
    materialized values and are outside this lemma). -/
theorem bson_roundtrip (co : CodecOptions) (d : Doc) (b : Bytes)
    (hreg : co.transformer_registry = []) (hwd : docWF d = true)
    (henc : dict_to_bson d false co = Except.ok b) :
    bson_to_dict b co = Except.ok d := by
  obtain ⟨body, hbody, hshape⟩ := dict_to_bson_shape co d b henc
  obtain ⟨hnd, hfw, hbound⟩ := docWF_parts hwd
  have hblen : body.length = elemsSize d :=
    putElements_length co d body hfw hbody
  have hlenb : b.length = body.length + 5 := by
    rw [hshape]
    simp [encU32LE]
  have hfuel : 1 + elemsNeed d ≤ b.length + 1 := by
    have h1 := elemsNeed_le d
    omega
  have hd := (dec_spec co hreg (b.length + 1)).2.2.2.1 d b [] hwd henc hfuel
  rw [List.append_nil] at hd
  unfold bson_to_dict getDocument
  rw [hd]
  rfl

/-- C5 (corrected): for every supported typed value v in a well-formed
    single-field document, decoding the BSON.encode output with BSON.decode
    under the same codec options recovers the document — provided the options
    carry no transformer registry.  As stated over arbitrary fixed options
    the claim fails: a registered decode hook rewrites the materialized value
    (see the accompanying counterexample). -/
theorem C5_roundtrip_registry_empty (n : Bytes) (v : Value) (co : CodecOptions)
    (b : Bytes) (hreg : co.transformer_registry = [])
    (hwf : docWF [(n, v)] = true)
    (henc : BSONencode [(n, v)] false (PyCodecOptions.valid co) = Except.ok b) :
    BSONdecode b (PyCodecOptions.valid co) = Except.ok [(n, v)] := by
  have henc1 : (dict_to_bson [(n, v)] false co).mapError PyError.bson =
      Except.ok b := henc
  have henc2 : dict_to_bson [(n, v)] false co = Except.ok b := by
    cases hdb : dict_to_bson [(n, v)] false co with
    | error e =>
        rw [hdb] at henc1
        exact absurd (henc1 : (Except.error (PyError.bson e) :
          Except PyError Bytes) = Except.ok b)
          (fun hh => Except.noConfusion hh)
    | ok bb =>
        rw [hdb] at henc1
        simpa [Except.mapError] using henc1
  show (bson_to_dict b co).mapError PyError.bson = Except.ok [(n, v)]
  rw [bson_roundtrip co [(n, v)] b hreg hwf henc2]
  rfl

/-- Refutation of C5 as stated over arbitrary fixed codec options: with a
    transformer registry whose decode hook claims every value and returns
    null, BSON.encode of the single-field document v: int32 1 succeeds, yet
    BSON.decode of those bytes under the same options returns the field bound
    to null, not to the original value. -/
theorem C5_counterexample :
    BSONencode [([118], Value.int32 1)] false (PyCodecOptions.valid
      { tz_aware := false
        document_class := DocClassK.dict
        uuid_representation := 3
        transformer_registry :=
          [{ encodeHookP := none
             decodeHookP := some (fun _ => some Value.null) }] }) =
      Except.ok [12, 0, 0, 0, 16, 118, 0, 1, 0, 0, 0, 0] ∧
    BSONdecode [12, 0, 0, 0, 16, 118, 0, 1, 0, 0, 0, 0] (PyCodecOptions.valid
      { tz_aware := false
        document_class := DocClassK.dict
        uuid_representation := 3
        transformer_registry :=
          [{ encodeHookP := none
             decodeHookP := some (fun _ => some Value.null) }] }) =
      Except.ok [([118], Value.null)] ∧
    ([([118], Value.null)] : Doc) ≠ [([118], Value.int32 1)] := by
  refine ⟨?_, by rfl, by simp⟩
  show (dict_to_bson [([118], Value.int32 1)] false _).mapError PyError.bson =
    Except.ok [12, 0, 0, 0, 16, 118, 0, 1, 0, 0, 0, 0]
  have h1 : putElements
      { tz_aware := false
        document_class := DocClassK.dict
        uuid_representation := 3
        transformer_registry :=
          [{ encodeHookP := none
             decodeHookP := some (fun _ => some Value.null) }] } false
      [([118], Value.int32 1)] = Except.ok [16, 118, 0, 1, 0, 0, 0] := by
    simp [putElements, putElement, putValue, encI32, encU32LE, tagOf, badKeyB]
    rfl
  unfold dict_to_bson
  rw [h1]
  rfl

/-- Concrete round-trip instance of the amended C5 statement, exercising the
    code-with-scope wire type (nested sized document inside a value payload):
    the default codec options carry no transformer registry, the document
    v: codeWScope "c" {x: int32 7} is well formed, its encoding is the
    30-byte document below, and decoding those bytes recovers the document. -/
theorem C5_roundtrip_witness :
    DEFAULT_CODEC_OPTIONS.transformer_registry = [] ∧
    docWF [([118], Value.codeWScope [99] [([120], Value.int32 7)])] = true ∧
    BSONencode [([118], Value.codeWScope [99] [([120], Value.int32 7)])] false
      (PyCodecOptions.valid DEFAULT_CODEC_OPTIONS) =
      Except.ok [30, 0, 0, 0, 15, 118, 0, 22, 0, 0, 0, 2, 0, 0, 0, 99, 0,
        12, 0, 0, 0, 16, 120, 0, 7, 0, 0, 0, 0, 0] ∧
    BSONdecode [30, 0, 0, 0, 15, 118, 0, 22, 0, 0, 0, 2, 0, 0, 0, 99, 0,
        12, 0, 0, 0, 16, 120, 0, 7, 0, 0, 0, 0, 0]
      (PyCodecOptions.valid DEFAULT_CODEC_OPTIONS) =
      Except.ok [([118], Value.codeWScope [99] [([120], Value.int32 7)])] := by
  have hwf : docWF [([118], Value.codeWScope [99] [([120], Value.int32 7)])] =
      true := by
    simp [docWF, fieldsWF, Value.wf, noDupKeys, hasKey, elemsSize, payloadSize]
  have henc : BSONencode [([118], Value.codeWScope [99]
        [([120], Value.int32 7)])] false
      (PyCodecOptions.valid DEFAULT_CODEC_OPTIONS) =
      Except.ok [30, 0, 0, 0, 15, 118, 0, 22, 0, 0, 0, 2, 0, 0, 0, 99, 0,
        12, 0, 0, 0, 16, 120, 0, 7, 0, 0, 0, 0, 0] := by
    show (dict_to_bson [([118], Value.codeWScope [99]
        [([120], Value.int32 7)])] false
      DEFAULT_CODEC_OPTIONS).mapError PyError.bson =
      Except.ok [30, 0, 0, 0, 15, 118, 0, 22, 0, 0, 0, 2, 0, 0, 0, 99, 0,
        12, 0, 0, 0, 16, 120, 0, 7, 0, 0, 0, 0, 0]
    have h1 : putElements DEFAULT_CODEC_OPTIONS false
        [([118], Value.codeWScope [99] [([120], Value.int32 7)])] =
        Except.ok [15, 118, 0, 22, 0, 0, 0, 2, 0, 0, 0, 99, 0,
          12, 0, 0, 0, 16, 120, 0, 7, 0, 0, 0, 0] := by
      simp [putElements, putElement, putValue, encI32, encU32LE, tagOf, badKeyB]
      rfl
    unfold dict_to_bson
    rw [h1]
    rfl
  exact ⟨rfl, hwf, henc, C5_roundtrip_registry_empty [118]
    (Value.codeWScope [99] [([120], Value.int32 7)])
    DEFAULT_CODEC_OPTIONS _ rfl hwf henc⟩

/-- C1: on a mutable raw view whose buffer inflates to the mapping d, after
    set("k", x) the raw property re-encodes: it returns bytes that decode
    back (under the view's rebuilt codec options) to d with key "k" bound to
    x, the view comes back clean, and a second read of the raw property
    returns the cached bytes from the unchanged state without re-encoding.
    The update is assumed to keep the mapping encodable (well-formed and
    within the int32 size frame), which every wire document satisfies. -/
theorem C1_dirty_reencode_roundtrip (B : Bytes) (co : CodecOptions) (x : Value)
    (d : Doc)
    (hinf : ((RawBSONDocument.init B co).inflate).1 = Except.ok d)
    (hwf : docWF (dictSet d [107] x) = true) :
    ∃ b2 : Bytes,
      ((RawBSONDocument.init B co).setitem [107] x).1 = Except.ok () ∧
      (((RawBSONDocument.init B co).setitem [107] x).2.rawProp).1 =
        Except.ok b2 ∧
      bson_to_dict b2 (RawBSONDocument.init B co).codec_options =
        Except.ok (dictSet d [107] x) ∧
      (((RawBSONDocument.init B co).setitem [107] x).2.rawProp).2.dirty =
        false ∧
      (((RawBSONDocument.init B co).setitem [107] x).2.rawProp).2.rawProp =
        (Except.ok b2,
          (((RawBSONDocument.init B co).setitem [107] x).2.rawProp).2) := by
  cases hbd : bson_to_dict B
      { tz_aware := co.tz_aware
        document_class := DocClassK.dict
        uuid_representation := co.uuid_representation
        transformer_registry := [] } with
  | error e =>
      exfalso
      have h1 : ((RawBSONDocument.init B co).inflate).1 = Except.error e := by
        simp [RawBSONDocument.inflate, RawBSONDocument.init, hbd]
      rw [h1] at hinf
      exact Except.noConfusion hinf
  | ok d0 =>
      have h1 : ((RawBSONDocument.init B co).inflate).1 = Except.ok d0 := by
        simp [RawBSONDocument.inflate, RawBSONDocument.init, hbd]
      have hd0 : d0 = d := by
        rw [h1] at hinf
        exact Except.ok.inj hinf
      subst hd0
      have hset : (RawBSONDocument.init B co).setitem [107] x =
          (Except.ok (),
            { raw := B
              inflated_doc := some (dictSet d0 [107] x)
              codec_options :=
                { tz_aware := co.tz_aware
                  document_class := DocClassK.dict
                  uuid_representation := co.uuid_representation
                  transformer_registry := [] }
              dirty := true }) := by
        simp [RawBSONDocument.setitem, RawBSONDocument.inflate,
          RawBSONDocument.init, hbd]
      obtain ⟨hnd, hfw, hbound⟩ := docWF_parts hwf
      obtain ⟨body, hbody, hblen⟩ := putElementsLen
        { tz_aware := co.tz_aware
          document_class := DocClassK.dict
          uuid_representation := co.uuid_representation
          transformer_registry := [] } (dictSet d0 [107] x) hfw
      have henc : dict_to_bson (dictSet d0 [107] x) false
          { tz_aware := co.tz_aware
            document_class := DocClassK.dict
            uuid_representation := co.uuid_representation
            transformer_registry := [] } =
          Except.ok (encU32LE (body.length + 5) ++ body ++ [0]) := by
        unfold dict_to_bson
        rw [hbody]
        rfl
      refine ⟨encU32LE (body.length + 5) ++ body ++ [0], ?_, ?_, ?_, ?_, ?_⟩
      · rw [hset]
      · rw [hset]
        simp [RawBSONDocument.rawProp, henc]
      · exact bson_roundtrip _ _ _ rfl hwf henc
      · rw [hset]
        simp [RawBSONDocument.rawProp, henc]
      · rw [hset]
        simp [RawBSONDocument.rawProp, henc]

/-- A 12-byte document a: int32 1 for exercising the dirty re-encode
    round trip. -/
def C1exB : Bytes := [12, 0, 0, 0, 16, 97, 0, 1, 0, 0, 0, 0]

/-- Concrete instance of the C1 statement, binding k to a regex value: the
    buffer a: int32 1 inflates, binding k to regex "a"/"i" keeps the mapping
    well formed, and the dirty re-encode round trip holds there. -/
theorem C1_witness :
    ((RawBSONDocument.init C1exB DEFAULT_CODEC_OPTIONS).inflate).1 =
      Except.ok [([97], Value.int32 1)] ∧
    docWF (dictSet [([97], Value.int32 1)] [107]
      (Value.regex [97] [105])) = true ∧
    (∃ b2 : Bytes,
      ((RawBSONDocument.init C1exB DEFAULT_CODEC_OPTIONS).setitem [107]
          (Value.regex [97] [105])).1 = Except.ok () ∧
      (((RawBSONDocument.init C1exB DEFAULT_CODEC_OPTIONS).setitem [107]
          (Value.regex [97] [105])).2.rawProp).1 = Except.ok b2 ∧
      bson_to_dict b2
          (RawBSONDocument.init C1exB DEFAULT_CODEC_OPTIONS).codec_options =
        Except.ok (dictSet [([97], Value.int32 1)] [107]
          (Value.regex [97] [105])) ∧
      (((RawBSONDocument.init C1exB DEFAULT_CODEC_OPTIONS).setitem [107]
          (Value.regex [97] [105])).2.rawProp).2.dirty = false ∧
      (((RawBSONDocument.init C1exB DEFAULT_CODEC_OPTIONS).setitem [107]
          (Value.regex [97] [105])).2.rawProp).2.rawProp =
        (Except.ok b2,
          (((RawBSONDocument.init C1exB DEFAULT_CODEC_OPTIONS).setitem [107]
              (Value.regex [97] [105])).2.rawProp).2)) := by
  have hinf : ((RawBSONDocument.init C1exB DEFAULT_CODEC_OPTIONS).inflate).1 =
      Except.ok [([97], Value.int32 1)] := rfl
  have hwf : docWF (dictSet [([97], Value.int32 1)] [107]
      (Value.regex [97] [105])) = true := by
    simp [dictSet, hasKey, docWF, fieldsWF, Value.wf, noDupKeys, elemsSize,
      payloadSize]
  exact ⟨hinf, hwf, C1_dirty_reencode_roundtrip C1exB DEFAULT_CODEC_OPTIONS
    (Value.regex [97] [105]) [([97], Value.int32 1)] hinf hwf⟩
